import Mathlib

/-!
# ChronoStore: a shallow embedding of the key-value cache engine

This file models the core of the ChronoStore repository in Lean 4:

* `LRUCache` (src/lru.h): a bounded-capacity map with least-recently-used
  eviction, modelled as the recency-ordered list that the C++ code keeps
  (`std::list`, front = most recently used). The auxiliary hash map of the
  C++ code is an O(1) index into that list; under the distinct-keys
  invariant it carries no extra information, so the model works on the
  list alone.
* `TTLManager` (src/ttl_manager.h): the key → absolute-deadline map, with
  time passed explicitly (an `Int`, milliseconds on the steady clock).
* `PersistenceEngine` (src/persistence.h): the binary snapshot codec,
  modelled byte-exactly, including the C++ `ifstream` failbit/eofbit
  behaviour on short reads.
* `KVStore` (src/store.cpp): the façade combining the three, with its
  counters.

Strings are byte strings in C++; here they are Lean `String`s, and the
codec encodes each character as one byte (theorems about the codec
restrict to strings whose characters are single-byte, which covers every
C++ string).
-/

namespace ChronoStore

/-! ## LRUCache (src/lru.h) -/

/-- The LRU cache: capacity and the recency list (front = MRU, back = LRU).
The C++ `map_` is an index into `list_`; with distinct keys it is
determined by the list, so the model keeps only the list. -/
structure LRUCache where
  capacity : Nat
  list : List (String × String)
  deriving Repr, DecidableEq

/-- A fresh cache of the given capacity (the C++ constructor rejects 0). -/
def LRUCache.init (capacity : Nat) : LRUCache := ⟨capacity, []⟩

/-- `LRUCache::get`: if present, splice the node to the front and return
its value; otherwise return nullopt without mutation. -/
def LRUCache.get (c : LRUCache) (key : String) : Option String × LRUCache :=
  match c.list.find? (fun p => p.1 == key) with
  | none => (none, c)
  | some p => (some p.2, { c with list := p :: c.list.eraseP (fun q => q.1 == key) })

/-- `LRUCache::set`: update-and-promote if present; otherwise insert at the
front and, if the size now exceeds capacity, evict the back (LRU) entry.
Returns the evicted key, `""` if none (the C++ sentinel). -/
def LRUCache.set (c : LRUCache) (key value : String) : String × LRUCache :=
  match c.list.find? (fun p => p.1 == key) with
  | some _ =>
      ("", { c with list := (key, value) :: c.list.eraseP (fun q => q.1 == key) })
  | none =>
      let l := (key, value) :: c.list
      if l.length > c.capacity then
        match l.getLast? with
        | some back => (back.1, { c with list := l.dropLast })
        | none => ("", { c with list := l })
      else
        ("", { c with list := l })

/-- `LRUCache::del`: erase from both structures; returns whether it existed. -/
def LRUCache.del (c : LRUCache) (key : String) : Bool × LRUCache :=
  match c.list.find? (fun p => p.1 == key) with
  | none => (false, c)
  | some _ => (true, { c with list := c.list.eraseP (fun q => q.1 == key) })

/-- `LRUCache::contains`: existence check, no recency side effect. -/
def LRUCache.contains (c : LRUCache) (key : String) : Bool :=
  c.list.any (fun p => p.1 == key)

/-- `LRUCache::entries`: the recency list, MRU first. -/
def LRUCache.entries (c : LRUCache) : List (String × String) := c.list

/-- Observer: the value currently stored under a key (read-only view of
the map the C++ `map_`/`list_` pair represents; no recency effect). -/
def LRUCache.lookup (c : LRUCache) (key : String) : Option String :=
  (c.list.find? (fun p => p.1 == key)).map Prod.snd

/-- `LRUCache::size`. -/
def LRUCache.size (c : LRUCache) : Nat := c.list.length

/-- `LRUCache::clear`. -/
def LRUCache.clear (c : LRUCache) : LRUCache := { c with list := [] }

/-- The structural invariant the C++ map/list pair maintains: each key
appears at most once in the recency list. -/
def LRUCache.WF (c : LRUCache) : Prop := (c.list.map Prod.fst).Nodup

instance (c : LRUCache) : Decidable c.WF := by
  unfold LRUCache.WF; infer_instance

/-! ## TTLManager (src/ttl_manager.h)

Time is explicit: a `now : Int` in milliseconds on the steady clock is
passed to each operation that calls `Clock::now()` in C++. Deadlines are
absolute times in the same unit. The map is an association list with
distinct keys (`std::unordered_map`); claims never observe its iteration
order, only lookups and membership. -/

/-- The deadline map of `TTLManager` (`expiry_map_`). -/
structure TTLManager where
  expiry_map : List (String × Int)
  deriving Repr, DecidableEq

def TTLManager.init : TTLManager := ⟨[]⟩

/-- Association-list lookup, the model of `expiry_map_.find`. -/
def TTLManager.lookup (m : TTLManager) (key : String) : Option Int :=
  (m.expiry_map.find? (fun p => p.1 == key)).map Prod.snd

/-- Map update `expiry_map_[key] = deadline` (insert or overwrite). -/
def TTLManager.store (m : TTLManager) (key : String) (deadline : Int) : TTLManager :=
  ⟨(key, deadline) :: m.expiry_map.eraseP (fun p => p.1 == key)⟩

/-- `TTLManager::set`: deadline = now + ttl_secs. -/
def TTLManager.set (m : TTLManager) (key : String) (ttl_secs : Int) (now : Int) : TTLManager :=
  m.store key (now + ttl_secs * 1000)

/-- `TTLManager::remove`: erase the key's deadline, no-op if absent. -/
def TTLManager.remove (m : TTLManager) (key : String) : TTLManager :=
  ⟨m.expiry_map.eraseP (fun p => p.1 == key)⟩

/-- `TTLManager::ttl`: -1 if no deadline; else the remaining time cast to
whole seconds (C++ `duration_cast` truncates toward zero), clamped to 0
from below by `remaining > 0 ? remaining : 0`. -/
def TTLManager.ttl (m : TTLManager) (key : String) (now : Int) : Int :=
  match m.lookup key with
  | none => -1
  | some deadline =>
      let remaining := Int.tdiv (deadline - now) 1000
      if remaining > 0 then remaining else 0

/-- `TTLManager::ttl_ms`: same at millisecond granularity. -/
def TTLManager.ttl_ms (m : TTLManager) (key : String) (now : Int) : Int :=
  match m.lookup key with
  | none => -1
  | some deadline =>
      let remaining := deadline - now
      if remaining > 0 then remaining else 0

/-- `TTLManager::setAbsolute`: record an explicit deadline. -/
def TTLManager.setAbsolute (m : TTLManager) (key : String) (deadline : Int) : TTLManager :=
  m.store key deadline

/-! ## Snapshot records (src/persistence.h) -/

/-- `SnapshotEntry`: one record of the snapshot file. -/
structure SnapshotEntry where
  key : String
  value : String
  ttl_ms : Int
  deriving Repr, DecidableEq

/-! ## KVStore (src/store.cpp) -/

/-- The engine façade: one cache, one deadline map, six counters. -/
structure KVStore where
  cache : LRUCache
  ttl_mgr : TTLManager
  hits : Nat
  misses : Nat
  evictions : Nat
  sets : Nat
  dels : Nat
  expirations : Nat
  deriving Repr, DecidableEq

/-- A fresh store of the given capacity. -/
def KVStore.init (capacity : Nat) : KVStore :=
  ⟨LRUCache.init capacity, TTLManager.init, 0, 0, 0, 0, 0, 0⟩

/-- `KVStore::set`: cache set; if the returned evicted key is non-empty,
drop its deadline and bump the eviction counter; then register the new
TTL if positive, else clear any prior TTL; bump the set counter. -/
def KVStore.set (st : KVStore) (key value : String) (ttl_seconds : Int) (now : Int) :
    String × KVStore :=
  let (evicted, cache') := st.cache.set key value
  let st := { st with cache := cache' }
  let st :=
    if evicted ≠ "" then
      { st with ttl_mgr := st.ttl_mgr.remove evicted, evictions := st.evictions + 1 }
    else st
  let st :=
    if ttl_seconds > 0 then
      { st with ttl_mgr := st.ttl_mgr.set key ttl_seconds now }
    else
      { st with ttl_mgr := st.ttl_mgr.remove key }
  (evicted, { st with sets := st.sets + 1 })

/-- `KVStore::get`: cache get, counting a hit or a miss. -/
def KVStore.get (st : KVStore) (key : String) : Option String × KVStore :=
  let (result, cache') := st.cache.get key
  match result with
  | some v => (some v, { st with cache := cache', hits := st.hits + 1 })
  | none => (none, { st with cache := cache', misses := st.misses + 1 })

/-- `KVStore::del`: cache delete; if it existed also clear its deadline
and bump the delete counter. -/
def KVStore.del (st : KVStore) (key : String) : Bool × KVStore :=
  let (existed, cache') := st.cache.del key
  if existed then
    (true, { st with cache := cache', ttl_mgr := st.ttl_mgr.remove key,
                     dels := st.dels + 1 })
  else
    (false, { st with cache := cache' })

/-- `KVStore::ttl`: -2 if the key is not resident, else the scheduler's
seconds-granularity ttl. -/
def KVStore.ttl (st : KVStore) (key : String) (now : Int) : Int :=
  if st.cache.contains key then st.ttl_mgr.ttl key now else -2

/-- `KVStore::keys`: resident keys, MRU first. -/
def KVStore.keys (st : KVStore) : List String :=
  st.cache.entries.map Prod.fst

/-- `KVStore::flush`: clears the cache only; the deadline map is left
untouched (the C++ comment notes stale entries expire harmlessly). -/
def KVStore.flush (st : KVStore) : KVStore :=
  { st with cache := st.cache.clear }

/-- `KVStore::size`. -/
def KVStore.size (st : KVStore) : Nat := st.cache.size

/-- `KVStore::onExpire`: the scheduler callback; delete from the cache
and count an expiration only if the key was actually present. -/
def KVStore.onExpire (st : KVStore) (key : String) : KVStore :=
  let (existed, cache') := st.cache.del key
  if existed then
    { st with cache := cache', expirations := st.expirations + 1 }
  else
    { st with cache := cache' }

/-- The record list `KVStore::save` assembles under the shared lock:
resident entries in MRU order, each paired with its remaining-ms TTL,
skipping entries whose remaining TTL is exactly 0. -/
def KVStore.saveEntries (st : KVStore) (now : Int) : List SnapshotEntry :=
  st.cache.entries.filterMap (fun p =>
    let remaining_ms := st.ttl_mgr.ttl_ms p.1 now
    if remaining_ms = 0 then none
    else some ⟨p.1, p.2, remaining_ms⟩)

/-- One iteration of the `KVStore::load` loop: skip a record with ttl 0,
otherwise insert it into the cache (ignoring any eviction report) and,
when ttl > 0, register the absolute deadline now + ttl. -/
def loadStep (now : Int) (acc : KVStore) (e : SnapshotEntry) : KVStore :=
  if e.ttl_ms = 0 then acc
  else
    let (_, cache') := acc.cache.set e.key e.value
    let acc := { acc with cache := cache' }
    if e.ttl_ms > 0 then
      { acc with ttl_mgr := acc.ttl_mgr.setAbsolute e.key (now + e.ttl_ms) }
    else acc

/-- The state change `KVStore::load` applies after a successful decode:
clear the cache (only — the deadline map is not cleared), then run the
record loop. -/
def KVStore.applyLoad (st : KVStore) (raw : List SnapshotEntry) (now : Int) : KVStore :=
  raw.foldl (loadStep now) { st with cache := st.cache.clear }

/-! ## PersistenceEngine binary codec (src/persistence.h)

The file is a byte sequence (`List Nat`, each element < 256 for files the
writer produces). Reading models `std::ifstream` faithfully: a short read
stores the bytes that were available, leaves the rest of the destination
zero-initialised, and sets both failbit and eofbit; once failbit is set
further reads store nothing. -/

def MAGIC : Nat := 0x43534442
def VERSION : Nat := 1

/-- Little-endian bytes of a 32-bit value (`write32`). -/
def encode32 (n : Nat) : List Nat :=
  [n % 256, n / 256 % 256, n / 65536 % 256, n / 16777216 % 256]

/-- Little-endian bytes of a 64-bit value (`write64`, unsigned view). -/
def encode64 (n : Nat) : List Nat :=
  [n % 256, n / 256 % 256, n / 65536 % 256, n / 16777216 % 256,
   n / 4294967296 % 256, n / 1099511627776 % 256,
   n / 281474976710656 % 256, n / 72057594037927936 % 256]

/-- `write64` of a signed int64: two's complement little-endian. -/
def encode64i (i : Int) : List Nat :=
  encode64 (i.emod 18446744073709551616).toNat

/-- `writeString`: 4-byte length then the raw bytes. -/
def encodeString (s : String) : List Nat :=
  encode32 s.length ++ s.toList.map Char.toNat

/-- The bytes of one record: key, value, ttl. -/
def encRecord (e : SnapshotEntry) : List Nat :=
  encodeString e.key ++ encodeString e.value ++ encode64i e.ttl_ms

/-- `PersistenceEngine::save`: header then the records in input order. -/
def PersistenceEngine.save (entries : List SnapshotEntry) : List Nat :=
  encode32 MAGIC ++ encode32 VERSION ++ encode64i entries.length ++
  (entries.map encRecord).flatten

/-- A Lean string that stands for a C++ byte string: every character is a
single byte. (C++ strings are raw byte sequences; the model is faithful
exactly for such strings.) -/
def ByteClean (s : String) : Prop := ∀ c ∈ s.data, c.toNat < 256

instance (s : String) : Decidable (ByteClean s) := by
  unfold ByteClean; infer_instance

/-- A record the binary format can represent faithfully: byte-clean
strings within the codec's 1 MiB sanity ceiling and a ttl that fits in a
signed 64-bit integer. -/
def EntryOK (e : SnapshotEntry) : Prop :=
  ByteClean e.key ∧ ByteClean e.value
  ∧ e.key.length ≤ 1048576 ∧ e.value.length ≤ 1048576
  ∧ -9223372036854775808 ≤ e.ttl_ms ∧ e.ttl_ms < 9223372036854775808

instance (e : SnapshotEntry) : Decidable (EntryOK e) := by
  unfold EntryOK; infer_instance

/-- A value one byte over the codec's 1 MiB sanity ceiling: `save` writes
it, but `load` rejects its length field as implausible. -/
def bigString : String := String.mk (List.replicate 1048577 'a')

/-- Input-stream state: the bytes, the read position, and the
failbit/eofbit of `std::ifstream`. -/
structure IStream where
  data : List Nat
  pos : Nat
  failb : Bool
  eofb : Bool
  deriving Repr, DecidableEq

/-- `ifs.read(buf, n)` into an `n`-byte zero-initialised buffer: if the
stream already failed, nothing is stored; if fewer than `n` bytes remain,
the available bytes are stored, the tail stays zero, and failbit and
eofbit are set. -/
def IStream.readBytes (s : IStream) (n : Nat) : List Nat × IStream :=
  if s.failb then (List.replicate n 0, s)
  else
    let avail := s.data.length - s.pos
    if n ≤ avail then
      ((s.data.drop s.pos).take n, { s with pos := s.pos + n })
    else
      ((s.data.drop s.pos) ++ List.replicate (n - avail) 0,
       { s with pos := s.data.length, failb := true, eofb := true })

/-- Assemble a little-endian byte list into a Nat. -/
def decodeLE (bytes : List Nat) : Nat :=
  bytes.foldr (fun b acc => b + 256 * acc) 0

/-- `read32`. -/
def IStream.read32 (s : IStream) : Nat × IStream :=
  let (bs, s') := s.readBytes 4
  (decodeLE bs, s')

/-- Reinterpret a 64-bit unsigned value as signed (two's complement). -/
def toInt64 (n : Nat) : Int :=
  if n < 9223372036854775808 then (n : Int) else (n : Int) - 18446744073709551616

/-- `read64`. -/
def IStream.read64 (s : IStream) : Int × IStream :=
  let (bs, s') := s.readBytes 8
  (toInt64 (decodeLE bs), s')

/-- `readString`: read the length, reject an implausible one, then read
that many bytes into a string of exactly that length (C++ constructs the
string as `len` NULs first, so a short read leaves NULs in the tail). -/
def IStream.readString (s : IStream) : Except String (String × IStream) :=
  let (len, s') := s.read32
  if len > 1048576 then .error "Implausible string length in snapshot"
  else
    let (bs, s'') := s'.readBytes len
    .ok (String.mk (bs.map Char.ofNat), s'')

/-- The record-reading loop of `PersistenceEngine::load`. -/
def readRecords : IStream → Nat → Except String (List SnapshotEntry × IStream)
  | s, 0 => .ok ([], s)
  | s, Nat.succ n =>
    match s.readString with
    | .error e => .error e
    | .ok (k, s1) =>
      match s1.readString with
      | .error e => .error e
      | .ok (v, s2) =>
        let (t, s3) := s2.read64
        match readRecords s3 n with
        | .error e => .error e
        | .ok (rest, s4) => .ok (⟨k, v, t⟩ :: rest, s4)

/-- `PersistenceEngine::load`: read magic and version, validate them,
read the record count, read the records, and finally throw a read error
only when the stream failed for a reason other than end-of-file
(`if (!ifs && !ifs.eof())`). -/
def PersistenceEngine.load (data : List Nat) : Except String (List SnapshotEntry) :=
  let s : IStream := ⟨data, 0, false, false⟩
  let (magic, s1) := s.read32
  let (version, s2) := s1.read32
  if magic ≠ MAGIC then .error "Invalid snapshot file (bad magic)"
  else if version ≠ VERSION then .error "Unsupported snapshot version"
  else
    let (count, s3) := s2.read64
    if count < 0 then .error "Corrupt record count"
    else
      match readRecords s3 count.toNat with
      | .error e => .error e
      | .ok (entries, s4) =>
        if s4.failb && !s4.eofb then .error "Read error on file"
        else .ok entries

/-- `KVStore::save`: the bytes written for the current state. -/
def KVStore.save (st : KVStore) (now : Int) : List Nat :=
  PersistenceEngine.save (st.saveEntries now)

/-- `KVStore::load`: decode first (any decode exception propagates before
any mutation), then apply the loaded records to the state. -/
def KVStore.load (st : KVStore) (data : List Nat) (now : Int) : Except String KVStore :=
  match PersistenceEngine.load data with
  | .error e => .error e
  | .ok raw => .ok (st.applyLoad raw now)

/-! ## Cache operation sequences (for the capacity invariant) -/

/-- One foreground operation on the cache. -/
inductive CacheOp where
  | get (key : String)
  | set (key value : String)
  | del (key : String)
  deriving Repr, DecidableEq

/-- Apply one operation, discarding the returned value. -/
def LRUCache.applyOp (c : LRUCache) : CacheOp → LRUCache
  | .get k => (c.get k).2
  | .set k v => (c.set k v).2
  | .del k => (c.del k).2

/-- Apply a sequence of operations in order. -/
def LRUCache.applyOps (c : LRUCache) (ops : List CacheOp) : LRUCache :=
  ops.foldl LRUCache.applyOp c

/-! ## Association-list helper lemmas -/

section AssocLemmas

variable {α : Type}

lemma find?_eq_none_of_not_mem_keys (l : List (String × α)) (k : String)
    (h : k ∉ l.map Prod.fst) : l.find? (fun p => p.1 == k) = none := by
  rw [List.find?_eq_none]
  intro p hp hpk
  exact h (List.mem_map.mpr ⟨p, hp, by simpa using hpk⟩)

lemma find?_eraseP_of_ne (l : List (String × α)) (k k' : String) (h : k' ≠ k) :
    (l.eraseP (fun p => p.1 == k)).find? (fun p => p.1 == k') =
      l.find? (fun p => p.1 == k') := by
  induction l with
  | nil => rfl
  | cons q l ih =>
    by_cases hq : q.1 = k
    · rw [List.eraseP_cons_of_pos (by simpa using hq)]
      rw [List.find?_cons_of_neg _ (by simp [hq, h.symm])]
    · rw [List.eraseP_cons_of_neg (by simpa using hq)]
      by_cases hq' : q.1 = k'
      · rw [List.find?_cons_of_pos _ (by simpa using hq'),
          List.find?_cons_of_pos _ (by simpa using hq')]
      · rw [List.find?_cons_of_neg _ (by simpa using hq'),
          List.find?_cons_of_neg _ (by simpa using hq')]
        exact ih

lemma nodup_keys_eraseP (l : List (String × α)) (pred : String × α → Bool)
    (h : (l.map Prod.fst).Nodup) : ((l.eraseP pred).map Prod.fst).Nodup :=
  (((l.eraseP_sublist (p := pred))).map Prod.fst).nodup h

lemma find?_eraseP_self (l : List (String × α)) (k : String)
    (h : (l.map Prod.fst).Nodup) :
    (l.eraseP (fun p => p.1 == k)).find? (fun p => p.1 == k) = none := by
  induction l with
  | nil => rfl
  | cons q l ih =>
    by_cases hq : q.1 = k
    · rw [List.eraseP_cons_of_pos (by simpa using hq)]
      apply find?_eq_none_of_not_mem_keys
      simp only [List.map_cons, List.nodup_cons] at h
      exact hq ▸ h.1
    · rw [List.eraseP_cons_of_neg (by simpa using hq)]
      rw [List.find?_cons_of_neg _ (by simpa using hq)]
      exact ih (by simp only [List.map_cons, List.nodup_cons] at h; exact h.2)

lemma keys_eraseP_subset (l : List (String × α)) (pred : String × α → Bool) :
    ∀ k, k ∈ (l.eraseP pred).map Prod.fst → k ∈ l.map Prod.fst := by
  intro k hk
  exact ((l.eraseP_sublist (p := pred)).map Prod.fst).mem hk

end AssocLemmas

/-! ## TTLManager lemmas -/

/-- The deadline map has distinct keys (an `std::unordered_map` always
does). -/
def TTLManager.WF (m : TTLManager) : Prop := (m.expiry_map.map Prod.fst).Nodup

instance (m : TTLManager) : Decidable m.WF := by
  unfold TTLManager.WF; infer_instance

lemma TTLManager.lookup_store_self (m : TTLManager) (k : String) (d : Int) :
    (m.store k d).lookup k = some d := by
  simp [TTLManager.store, TTLManager.lookup, List.find?_cons_of_pos]

lemma TTLManager.lookup_store_ne (m : TTLManager) (k : String) (d : Int)
    (k' : String) (h : k' ≠ k) : (m.store k d).lookup k' = m.lookup k' := by
  unfold TTLManager.store TTLManager.lookup
  dsimp only
  rw [List.find?_cons_of_neg _ (by simpa using h.symm)]
  rw [find?_eraseP_of_ne _ _ _ h]

lemma TTLManager.lookup_remove_self (m : TTLManager) (k : String) (h : m.WF) :
    (m.remove k).lookup k = none := by
  unfold TTLManager.remove TTLManager.lookup
  rw [find?_eraseP_self _ _ h]
  rfl

lemma TTLManager.lookup_remove_ne (m : TTLManager) (k k' : String) (h : k' ≠ k) :
    (m.remove k).lookup k' = m.lookup k' := by
  unfold TTLManager.remove TTLManager.lookup
  rw [find?_eraseP_of_ne _ _ _ h]

lemma TTLManager.WF_store (m : TTLManager) (k : String) (d : Int) (h : m.WF) :
    (m.store k d).WF := by
  unfold TTLManager.WF TTLManager.store
  simp only [List.map_cons, List.nodup_cons]
  constructor
  · intro hmem
    have := find?_eraseP_self m.expiry_map k h
    rw [List.find?_eq_none] at this
    obtain ⟨p, hp, hpk⟩ := List.mem_map.mp hmem
    exact absurd (by simpa using hpk) (by simpa using this p hp)
  · exact nodup_keys_eraseP _ _ h

lemma TTLManager.WF_remove (m : TTLManager) (k : String) (h : m.WF) :
    (m.remove k).WF :=
  nodup_keys_eraseP _ _ h

lemma TTLManager.WF_set_deadline (m : TTLManager) (k : String) (t now : Int) (h : m.WF) :
    (m.set k t now).WF := m.WF_store _ _ h

lemma TTLManager.WF_setAbsolute (m : TTLManager) (k : String) (d : Int) (h : m.WF) :
    (m.setAbsolute k d).WF := m.WF_store _ _ h

lemma TTLManager.WF_init_map : TTLManager.init.WF := by
  unfold TTLManager.WF TTLManager.init
  simp

/-- `ttl` in terms of `lookup`. -/
lemma TTLManager.ttl_eq (m : TTLManager) (k : String) (now : Int) :
    m.ttl k now = match m.lookup k with
      | none => -1
      | some d => if 0 < Int.tdiv (d - now) 1000 then Int.tdiv (d - now) 1000 else 0 := by
  unfold TTLManager.ttl
  rfl

/-- `ttl_ms` in terms of `lookup`. -/
lemma TTLManager.ttl_ms_eq (m : TTLManager) (k : String) (now : Int) :
    m.ttl_ms k now = match m.lookup k with
      | none => -1
      | some d => if 0 < d - now then d - now else 0 := by
  unfold TTLManager.ttl_ms
  rfl

/-! ## LRUCache lemmas -/

lemma dropLast_sublist' {α : Type} (l : List α) : l.dropLast.Sublist l := by
  induction l with
  | nil => simp
  | cons a t ih =>
    cases t with
    | nil => simp
    | cons b u =>
      rw [List.dropLast_cons₂]
      exact List.Sublist.cons₂ a ih

lemma LRUCache.get_capacity (c : LRUCache) (k : String) :
    (c.get k).2.capacity = c.capacity := by
  unfold LRUCache.get
  split <;> rfl

lemma LRUCache.set_capacity (c : LRUCache) (k v : String) :
    (c.set k v).2.capacity = c.capacity := by
  unfold LRUCache.set
  split
  · rfl
  · dsimp only
    split
    · split <;> rfl
    · rfl

lemma LRUCache.del_capacity (c : LRUCache) (k : String) :
    (c.del k).2.capacity = c.capacity := by
  unfold LRUCache.del
  split <;> rfl

lemma LRUCache.get_size (c : LRUCache) (k : String) :
    (c.get k).2.size = c.size := by
  unfold LRUCache.get
  split
  · rfl
  · rename_i p hp
    have hmem := List.mem_of_find?_eq_some hp
    have hpk := List.find?_some hp
    have := @List.length_eraseP_add_one _ (fun q => q.1 == k) c.list p hmem hpk
    simp only [LRUCache.size, List.length_cons]
    omega

lemma LRUCache.set_size_le (c : LRUCache) (k v : String) (h : c.size ≤ c.capacity) :
    (c.set k v).2.size ≤ c.capacity := by
  unfold LRUCache.set
  split
  · rename_i p hp
    have hmem := List.mem_of_find?_eq_some hp
    have hpk := List.find?_some hp
    have := @List.length_eraseP_add_one _ (fun q => q.1 == k) c.list p hmem hpk
    simp only [LRUCache.size, List.length_cons] at h ⊢
    omega
  · dsimp only
    split
    · rename_i hlen
      split
      · rename_i back hback
        simp only [LRUCache.size, List.length_dropLast, List.length_cons] at h ⊢
        omega
      · rename_i hback
        simp at hback
    · rename_i hlen
      simp only [LRUCache.size, List.length_cons] at h hlen ⊢
      omega

lemma LRUCache.del_size_le (c : LRUCache) (k : String) (h : c.size ≤ c.capacity) :
    (c.del k).2.size ≤ c.capacity := by
  unfold LRUCache.del
  split
  · exact h
  · simp only [LRUCache.size]
    have : (c.list.eraseP (fun q => q.1 == k)).length ≤ c.list.length :=
      (c.list.eraseP_sublist).length_le
    simp only [LRUCache.size] at h
    omega

lemma not_mem_keys_of_find?_none {α : Type} (l : List (String × α)) (k : String)
    (h : l.find? (fun p => p.1 == k) = none) : k ∉ l.map Prod.fst := by
  rw [List.find?_eq_none] at h
  intro hmem
  obtain ⟨p, hp, hpk⟩ := List.mem_map.mp hmem
  exact absurd (by simpa using hpk) (by simpa using h p hp)

lemma find?_eq_none_of_not_contains (c : LRUCache) (k : String)
    (h : c.contains k = false) : c.list.find? (fun p => p.1 == k) = none := by
  rw [List.find?_eq_none]
  intro p hp hpk
  unfold LRUCache.contains at h
  rw [List.any_eq_false] at h
  exact absurd hpk (by simpa using h p hp)

lemma LRUCache.contains_iff (c : LRUCache) (k : String) :
    c.contains k = true ↔ k ∈ c.list.map Prod.fst := by
  unfold LRUCache.contains
  rw [List.any_eq_true]
  constructor
  · rintro ⟨p, hp, hpk⟩
    exact List.mem_map.mpr ⟨p, hp, by simpa using hpk⟩
  · rintro hmem
    obtain ⟨p, hp, hpk⟩ := List.mem_map.mp hmem
    exact ⟨p, hp, by simpa using hpk⟩

lemma nodup_cons_eraseP {α : Type} (l : List (String × α)) (k : String)
    (x : String × α) (hx : x.1 = k) (h : (l.map Prod.fst).Nodup) :
    ((x :: l.eraseP (fun p => p.1 == k)).map Prod.fst).Nodup := by
  simp only [List.map_cons, List.nodup_cons]
  refine ⟨?_, nodup_keys_eraseP _ _ h⟩
  rw [hx]
  exact not_mem_keys_of_find?_none _ _ (find?_eraseP_self _ _ h)

lemma LRUCache.WF_get (c : LRUCache) (k : String) (h : c.WF) : (c.get k).2.WF := by
  unfold LRUCache.get
  split
  · exact h
  · rename_i p hp
    have hpk := List.find?_some hp
    exact nodup_cons_eraseP c.list k p (by simpa using hpk) h

lemma LRUCache.WF_set (c : LRUCache) (k v : String) (h : c.WF) : (c.set k v).2.WF := by
  unfold LRUCache.set
  split
  · exact nodup_cons_eraseP c.list k (k, v) rfl h
  · rename_i hnone
    have hk : k ∉ c.list.map Prod.fst := not_mem_keys_of_find?_none _ _ hnone
    have hcons : (((k, v) :: c.list).map Prod.fst).Nodup := by
      simp only [List.map_cons, List.nodup_cons]
      exact ⟨hk, h⟩
    dsimp only
    split
    · split
      · exact ((dropLast_sublist' _).map Prod.fst).nodup hcons
      · exact hcons
    · exact hcons

lemma LRUCache.WF_del (c : LRUCache) (k : String) (h : c.WF) : (c.del k).2.WF := by
  unfold LRUCache.del
  split
  · exact h
  · exact nodup_keys_eraseP _ _ h

lemma LRUCache.WF_clear (c : LRUCache) : c.clear.WF := by
  unfold LRUCache.WF LRUCache.clear
  simp

lemma LRUCache.init_WF (C : Nat) : (LRUCache.init C).WF := by
  unfold LRUCache.WF LRUCache.init
  simp

lemma LRUCache.applyOp_capacity (c : LRUCache) (op : CacheOp) :
    (c.applyOp op).capacity = c.capacity := by
  cases op with
  | get k => exact c.get_capacity k
  | set k v => exact c.set_capacity k v
  | del k => exact c.del_capacity k

lemma LRUCache.applyOp_size_le (c : LRUCache) (op : CacheOp)
    (h : c.size ≤ c.capacity) : (c.applyOp op).size ≤ c.capacity := by
  cases op with
  | get k => rw [LRUCache.applyOp, c.get_size k]; exact h
  | set k v => exact c.set_size_le k v h
  | del k => exact c.del_size_le k h

lemma LRUCache.applyOps_size_le (c : LRUCache) (ops : List CacheOp)
    (h : c.size ≤ c.capacity) : (c.applyOps ops).size ≤ c.capacity := by
  induction ops generalizing c with
  | nil => exact h
  | cons op ops ih =>
    unfold LRUCache.applyOps
    rw [List.foldl_cons]
    have hcap := c.applyOp_capacity op
    have := ih (c.applyOp op) (hcap ▸ c.applyOp_size_le op h)
    rw [hcap] at this
    exact this

lemma LRUCache.set_evict_eq (c : LRUCache) (k v : String)
    (hsize : c.size = c.capacity) (hpos : 0 < c.capacity)
    (habs : c.contains k = false) :
    ∃ hne : c.list ≠ [],
      c.set k v = ((c.list.getLast hne).1,
        { c with list := (k, v) :: c.list.dropLast }) := by
  have hfind := find?_eq_none_of_not_contains c k habs
  have hne : c.list ≠ [] := by
    intro h0
    unfold LRUCache.size at hsize
    rw [h0] at hsize
    simp at hsize
    omega
  refine ⟨hne, ?_⟩
  have hlen : ((k, v) :: c.list).length > c.capacity := by
    simp only [List.length_cons]
    unfold LRUCache.size at hsize
    omega
  have hgl : ((k, v) :: c.list).getLast? = some (c.list.getLast hne) := by
    rw [List.getLast?_eq_getLast_of_ne_nil (List.cons_ne_nil _ _), List.getLast_cons hne]
  have hdl : ((k, v) :: c.list).dropLast = (k, v) :: c.list.dropLast := by
    cases hl : c.list with
    | nil => exact absurd hl hne
    | cons q t => rw [List.dropLast_cons₂]
  unfold LRUCache.set
  rw [hfind]
  dsimp only
  rw [if_pos hlen, hgl, hdl]

/-- C1: for every capacity C > 0 and every sequence of get/set/delete
operations, the number of resident entries never exceeds C; a set that
inserts a new key into a cache holding C (= capacity) entries evicts
exactly the least-recently-touched resident key (the back of the recency
list), keeping all other entries; and in the concrete capacity-2 scenario
`set(a,1); set(b,2); get(a); set(c,3)` the evicted key is `b` and `a`, `c`
remain resident. -/
theorem claim_C1 (C : Nat) (hC : 0 < C) (ops : List CacheOp) (c : LRUCache)
    (k v : String) (hcap : c.capacity = C) (hsize : c.size = C)
    (habs : c.contains k = false) :
    ((LRUCache.init C).applyOps ops).size ≤ C
    ∧ (∃ back, c.list.getLast? = some back
        ∧ (c.set k v).1 = back.1
        ∧ (c.set k v).2.list = (k, v) :: c.list.dropLast)
    ∧ (let c3 := (((((LRUCache.init 2).set "a" "1").2.set "b" "2").2.get "a").2)
       (c3.set "c" "3").1 = "b"
       ∧ (c3.set "c" "3").2.contains "a" = true
       ∧ (c3.set "c" "3").2.contains "c" = true
       ∧ (c3.set "c" "3").2.contains "b" = false) := by
  refine ⟨?_, ?_, by decide⟩
  · exact (LRUCache.init C).applyOps_size_le ops (by simp [LRUCache.init, LRUCache.size])
  · obtain ⟨hne, hset⟩ := c.set_evict_eq k v (by omega) (by omega)
      habs
    refine ⟨c.list.getLast hne, List.getLast?_eq_getLast_of_ne_nil hne, ?_, ?_⟩
    · rw [hset]
    · rw [hset]

/-- Witness for C1 at concrete inputs: capacity 2, a two-entry cache, and
a fresh key whose insertion must evict the back entry. -/
theorem claim_C1_witness :
    0 < 2
    ∧ (⟨2, [("x", "1"), ("y", "2")]⟩ : LRUCache).capacity = 2
    ∧ (⟨2, [("x", "1"), ("y", "2")]⟩ : LRUCache).size = 2
    ∧ (⟨2, [("x", "1"), ("y", "2")]⟩ : LRUCache).contains "z" = false
    ∧ (((LRUCache.init 2).applyOps []).size ≤ 2
      ∧ (∃ back, (⟨2, [("x", "1"), ("y", "2")]⟩ : LRUCache).list.getLast? = some back
          ∧ ((⟨2, [("x", "1"), ("y", "2")]⟩ : LRUCache).set "z" "3").1 = back.1
          ∧ ((⟨2, [("x", "1"), ("y", "2")]⟩ : LRUCache).set "z" "3").2.list =
              ("z", "3") :: (⟨2, [("x", "1"), ("y", "2")]⟩ : LRUCache).list.dropLast)
      ∧ (let c3 := (((((LRUCache.init 2).set "a" "1").2.set "b" "2").2.get "a").2)
         (c3.set "c" "3").1 = "b"
         ∧ (c3.set "c" "3").2.contains "a" = true
         ∧ (c3.set "c" "3").2.contains "c" = true
         ∧ (c3.set "c" "3").2.contains "b" = false)) :=
  ⟨by decide, rfl, rfl, by decide,
    claim_C1 2 (by decide) [] ⟨2, [("x", "1"), ("y", "2")]⟩ "z" "3" rfl rfl (by decide)⟩

/-! ## KVStore lemmas -/

/-- `KVStore::set`, with the let/if structure flattened into one record. -/
lemma KVStore.set_unfold (st : KVStore) (k v : String) (t now : Int) :
    st.set k v t now =
      ((st.cache.set k v).1,
        { cache := (st.cache.set k v).2,
          ttl_mgr :=
            (if 0 < t then
              (if (st.cache.set k v).1 ≠ "" then
                  st.ttl_mgr.remove (st.cache.set k v).1
                else st.ttl_mgr).set k t now
             else
              (if (st.cache.set k v).1 ≠ "" then
                  st.ttl_mgr.remove (st.cache.set k v).1
                else st.ttl_mgr).remove k),
          hits := st.hits, misses := st.misses,
          evictions := if (st.cache.set k v).1 ≠ "" then st.evictions + 1
                       else st.evictions,
          sets := st.sets + 1, dels := st.dels,
          expirations := st.expirations }) := by
  unfold KVStore.set
  rcases hcs : st.cache.set k v with ⟨ev, c'⟩
  dsimp only
  by_cases hev : ev ≠ "" <;> by_cases ht : 0 < t <;>
    simp [hev, ht]

/-- C9: `flush` empties the cache (size 0, no keys) and leaves the
scheduler's deadline map exactly unchanged. -/
theorem claim_C9 (st : KVStore) :
    st.flush.size = 0
    ∧ st.flush.keys = []
    ∧ st.flush.ttl_mgr = st.ttl_mgr
    ∧ (∀ k, st.flush.ttl_mgr.lookup k = st.ttl_mgr.lookup k) :=
  ⟨rfl, rfl, rfl, fun _ => rfl⟩

/-- C7: a set with positive ttl_seconds registers/refreshes the key's
deadline at now + ttl·1000; a set with non-positive ttl_seconds clears any
existing deadline; concretely, `set(k,v,30)` then a bare `set(k,v2)`
leaves `ttl(k) = -1`. -/
theorem claim_C7 (st : KVStore) (k v : String) (t now : Int)
    (hWF : st.ttl_mgr.WF) :
    (0 < t → (st.set k v t now).2.ttl_mgr.lookup k = some (now + t * 1000))
    ∧ (t ≤ 0 → (st.set k v t now).2.ttl_mgr.lookup k = none)
    ∧ ((((KVStore.init 2).set "k" "v" 30 0).2.set "k" "v2" (-1) 5).2.ttl "k" 99
        = -1) := by
  refine ⟨?_, ?_, by decide⟩
  · intro ht
    rw [KVStore.set_unfold]
    dsimp only
    rw [if_pos ht]
    exact TTLManager.lookup_store_self _ _ _
  · intro ht
    rw [KVStore.set_unfold]
    dsimp only
    rw [if_neg (by omega)]
    apply TTLManager.lookup_remove_self
    split
    · exact st.ttl_mgr.WF_remove _ hWF
    · exact hWF

/-- Witness for C7: a concrete store, key and TTL values. -/
theorem claim_C7_witness :
    (TTLManager.init.WF
    ∧ (0 < (7 : Int) →
        ((KVStore.init 3).set "a" "x" 7 100).2.ttl_mgr.lookup "a"
          = some (100 + 7 * 1000)))
    ∧ ((7 : Int) ≤ 0 →
        ((KVStore.init 3).set "a" "x" 7 100).2.ttl_mgr.lookup "a" = none) := by
  have h := claim_C7 (KVStore.init 3) "a" "x" 7 100 (by decide)
  exact ⟨⟨by decide, h.1⟩, h.2.1⟩

/-- C6 counterexample: with a deadline 1000 ms away and now = 500 ms, the
deadline has not passed, yet `ttl` returns 0, not a positive count — the
claim's trichotomy (0 only when the deadline has passed, else n > 0)
fails. -/
theorem claim_C6_counterexample :
    (((KVStore.init 2).set "k" "v" 1 0).2.cache.contains "k" = true)
    ∧ (((KVStore.init 2).set "k" "v" 1 0).2.ttl_mgr.lookup "k" = some 1000)
    ∧ ¬ ((1000 : Int) ≤ 500)
    ∧ (((KVStore.init 2).set "k" "v" 1 0).2.ttl "k" 500 = 0)
    ∧ ¬ (0 < ((KVStore.init 2).set "k" "v" 1 0).2.ttl "k" 500) := by
  refine ⟨rfl, rfl, by omega, rfl, by decide⟩

/-- C6 amended: `ttl(key)` is -2 when the key is not resident; otherwise
-1 when no deadline is recorded; 0 when the deadline has passed **or
fewer than 1000 ms remain**; otherwise the remaining seconds rounded
down, which is then positive and never exceeds the true remaining time. -/
theorem claim_C6_amended (st : KVStore) (k : String) (now d : Int) :
    (st.cache.contains k = false → st.ttl k now = -2)
    ∧ (st.cache.contains k = true → st.ttl_mgr.lookup k = none →
        st.ttl k now = -1)
    ∧ (st.cache.contains k = true → st.ttl_mgr.lookup k = some d →
        d - now < 1000 → st.ttl k now = 0)
    ∧ (st.cache.contains k = true → st.ttl_mgr.lookup k = some d →
        1000 ≤ d - now →
          st.ttl k now = Int.tdiv (d - now) 1000
          ∧ 0 < st.ttl k now
          ∧ st.ttl k now * 1000 ≤ d - now) := by
  refine ⟨?_, ?_, ?_, ?_⟩
  · intro hc
    unfold KVStore.ttl
    rw [hc]
    rfl
  · intro hc hl
    unfold KVStore.ttl
    rw [hc]
    simp only [if_pos]
    unfold TTLManager.ttl
    rw [hl]
  · intro hc hl hlt
    unfold KVStore.ttl
    rw [hc]
    simp only [if_pos]
    unfold TTLManager.ttl
    rw [hl]
    dsimp only
    rw [if_neg]
    rcases Int.lt_or_le (d - now) 0 with hneg | hpos
    · have h1 : Int.tdiv (d - now) 1000 = -(Int.tdiv (-(d - now)) 1000) := by
        rw [← Int.neg_tdiv, Int.neg_neg]
      have h2 : 0 ≤ Int.tdiv (-(d - now)) 1000 :=
        Int.tdiv_nonneg (by omega) (by omega)
      omega
    · rw [Int.tdiv_eq_zero_of_lt hpos hlt]
      omega
  · intro hc hl hge
    have hpos : 0 < Int.tdiv (d - now) 1000 := by
      rw [Int.tdiv_eq_ediv (by omega) (by omega)]
      rw [Int.lt_iff_add_one_le, Int.le_ediv_iff_mul_le (by omega : (0:Int) < 1000)]
      omega
    have hrstep : st.ttl k now = Int.tdiv (d - now) 1000 := by
      unfold KVStore.ttl
      rw [hc]
      simp only [if_pos]
      unfold TTLManager.ttl
      rw [hl]
      dsimp only
      rw [if_pos hpos]
    refine ⟨hrstep, hrstep ▸ hpos, ?_⟩
    rw [hrstep, Int.tdiv_eq_ediv (by omega) (by omega)]
    exact Int.ediv_mul_le _ (by omega)

/-- Witness for C6 amended: a resident key with a 5000 ms deadline at
now = 0 has ttl 5, positive and a sound lower bound. -/
theorem claim_C6_witness :
    ((KVStore.init 2).set "k" "v" 5 0).2.ttl "k" 0 = Int.tdiv (5000 - 0) 1000
    ∧ 0 < ((KVStore.init 2).set "k" "v" 5 0).2.ttl "k" 0
    ∧ ((KVStore.init 2).set "k" "v" 5 0).2.ttl "k" 0 * 1000 ≤ 5000 - 0 :=
  (claim_C6_amended ((KVStore.init 2).set "k" "v" 5 0).2 "k" 0 5000).2.2.2
    (by decide) (by decide) (by decide)

lemma getLast_key_not_mem_dropLast {α : Type} (l : List (String × α)) (hne : l ≠ [])
    (h : (l.map Prod.fst).Nodup) :
    (l.getLast hne).1 ∉ l.dropLast.map Prod.fst := by
  have hl : l.dropLast ++ [l.getLast hne] = l := List.dropLast_append_getLast hne
  rw [← hl, List.map_append] at h
  rw [List.nodup_append] at h
  intro hmem
  exact h.2.2 hmem (by simp)

/-- If `LRUCache::set` reports a non-empty evicted key and the capacity is
positive, the call took the insert-and-evict path: the key was absent, the
evicted entry is the back of the recency list, and the new list is the new
entry in front of all old entries but the last. -/
lemma LRUCache.set_evicted_spec (c : LRUCache) (k v : String)
    (hcap : 0 < c.capacity) (hev : (c.set k v).1 ≠ "") :
    ∃ hne : c.list ≠ [],
      c.list.find? (fun p => p.1 == k) = none
      ∧ c.set k v = ((c.list.getLast hne).1,
          { c with list := (k, v) :: c.list.dropLast }) := by
  unfold LRUCache.set at hev ⊢
  rcases hfind : c.list.find? (fun p => p.1 == k) with _ | p
  · rw [hfind] at hev ⊢
    dsimp only at hev ⊢
    by_cases hlen : ((k, v) :: c.list).length > c.capacity
    · rw [if_pos hlen] at hev ⊢
      have hne : c.list ≠ [] := by
        intro h0
        rw [h0] at hlen
        simp at hlen
        omega
      refine ⟨hne, rfl, ?_⟩
      have hgl : ((k, v) :: c.list).getLast? = some (c.list.getLast hne) := by
        rw [List.getLast?_eq_getLast_of_ne_nil (List.cons_ne_nil _ _),
          List.getLast_cons hne]
      rw [hgl]
      have hdl : ((k, v) :: c.list).dropLast = (k, v) :: c.list.dropLast := by
        cases hl : c.list with
        | nil => exact absurd hl hne
        | cons q t => rw [List.dropLast_cons₂]
      rw [hdl]
    · rw [if_neg hlen] at hev
      exact absurd rfl hev
  · rw [hfind] at hev
    exact absurd rfl hev

/-- The evicted key differs from the key being set (the new entry is at
the front, the evicted one at the back of a ≥ 2 element list). -/
lemma LRUCache.set_evicted_ne (c : LRUCache) (k v : String)
    (hcap : 0 < c.capacity) (hev : (c.set k v).1 ≠ "") :
    (c.set k v).1 ≠ k := by
  obtain ⟨hne, hfind, hset⟩ := c.set_evicted_spec k v hcap hev
  rw [hset]
  dsimp only
  intro hk
  have hmem : (c.list.getLast hne).1 ∈ c.list.map Prod.fst :=
    List.mem_map.mpr ⟨_, List.getLast_mem hne, rfl⟩
  rw [hk] at hmem
  exact not_mem_keys_of_find?_none _ _ hfind hmem

lemma LRUCache.del_not_contained (c : LRUCache) (k : String)
    (h : c.contains k = false) : c.del k = (false, c) := by
  unfold LRUCache.del
  rw [find?_eq_none_of_not_contains c k h]

/-- C5 counterexample: with capacity 1, after `set("", v, ttl 10)` a
`set("x", w)` evicts the resident empty-string key (it is gone from the
cache afterwards), yet the eviction counter is not incremented and the
empty string's deadline is not removed — the `""` sentinel for "nothing
evicted" masks a real eviction of the empty-string key. -/
theorem claim_C5_counterexample :
    (((KVStore.init 1).set "" "v" 10 0).2.cache.contains "" = true)
    ∧ ((((KVStore.init 1).set "" "v" 10 0).2.set "x" "w" (-1) 0).2.cache.contains ""
        = false)
    ∧ ((((KVStore.init 1).set "" "v" 10 0).2.set "x" "w" (-1) 0).2.evictions = 0)
    ∧ ((((KVStore.init 1).set "" "v" 10 0).2.set "x" "w" (-1) 0).2.ttl_mgr.lookup ""
        = some 10000) := by
  refine ⟨rfl, rfl, rfl, rfl⟩

/-- C5 amended: for every `KVStore::set` whose cache-level eviction report
is a **non-empty** key ev, the engine removes ev's deadline (its lookup is
gone), increments the eviction counter by exactly one, `ttl(ev)` is -2
immediately afterwards, and a later stray expiry callback for ev does not
increment the expiration counter. For an evicted empty-string key none of
this bookkeeping happens (see the counterexample). -/
theorem claim_C5_amended (st : KVStore) (k v : String) (t now now' : Int)
    (hcap : 0 < st.cache.capacity) (hWFc : st.cache.WF) (hWFt : st.ttl_mgr.WF)
    (hev : (st.cache.set k v).1 ≠ "") :
    (st.set k v t now).2.ttl_mgr.lookup (st.cache.set k v).1 = none
    ∧ (st.set k v t now).2.evictions = st.evictions + 1
    ∧ (st.set k v t now).2.ttl (st.cache.set k v).1 now' = -2
    ∧ ((st.set k v t now).2.onExpire (st.cache.set k v).1).expirations
        = (st.set k v t now).2.expirations := by
  obtain ⟨hne, hfind, hset⟩ := st.cache.set_evicted_spec k v hcap hev
  have hevk : (st.cache.set k v).1 ≠ k := st.cache.set_evicted_ne k v hcap hev
  have hcontains : (st.set k v t now).2.cache.contains (st.cache.set k v).1
      = false := by
    rw [KVStore.set_unfold]
    dsimp only
    rw [hset]
    dsimp only
    rw [Bool.eq_false_iff]
    intro hcon
    rw [LRUCache.contains_iff] at hcon
    dsimp only at hcon
    rw [List.map_cons] at hcon
    rcases List.mem_cons.mp hcon with h1 | h2
    · exact hevk (by rw [hset]; exact h1)
    · exact getLast_key_not_mem_dropLast st.cache.list hne hWFc h2
  refine ⟨?_, ?_, ?_, ?_⟩
  · rw [KVStore.set_unfold]
    dsimp only
    simp only [if_pos hev]
    split
    · unfold TTLManager.set
      rw [TTLManager.lookup_store_ne _ _ _ _ hevk,
        TTLManager.lookup_remove_self _ _ hWFt]
    · rw [TTLManager.lookup_remove_ne _ _ _ hevk,
        TTLManager.lookup_remove_self _ _ hWFt]
  · rw [KVStore.set_unfold]
    dsimp only
    rw [if_pos hev]
  · unfold KVStore.ttl
    rw [hcontains]
    rfl
  · unfold KVStore.onExpire
    rw [LRUCache.del_not_contained _ _ hcontains]
    rfl

/-- Witness for C5 amended: capacity 1, a resident key "old" with a
deadline, evicted by inserting "new". -/
theorem claim_C5_witness :
    (0 < (((KVStore.init 1).set "old" "v" 10 0).2.cache.capacity)
      ∧ ((((KVStore.init 1).set "old" "v" 10 0).2.cache.set "new" "w").1 ≠ ""))
    ∧ ((((KVStore.init 1).set "old" "v" 10 0).2.set "new" "w" (-1) 0).2.ttl_mgr.lookup
          ((((KVStore.init 1).set "old" "v" 10 0).2.cache.set "new" "w").1) = none
      ∧ (((KVStore.init 1).set "old" "v" 10 0).2.set "new" "w" (-1) 0).2.evictions
          = ((KVStore.init 1).set "old" "v" 10 0).2.evictions + 1) := by
  have h := claim_C5_amended ((KVStore.init 1).set "old" "v" 10 0).2 "new" "w"
    (-1) 0 7 (by decide) (by decide) (by decide) (by decide)
  exact ⟨⟨by decide, by decide⟩, h.1, h.2.1⟩

/-! ## Persistence claims -/

/-- C3 (evidence of a code bug): truncating a well-formed snapshot to its
16-byte header (valid magic, version, record_count = 1, record bytes
missing) does **not** make `PersistenceEngine::load` raise a read error.
Truncation sets both failbit and eofbit on the `ifstream`, and the final
check `if (!ifs && !ifs.eof())` deliberately exempts eof-caused failures,
so load returns a record list — here one zero-filled record — instead of
throwing. The spec says a truncated file surfaces as a read error. -/
theorem claim_C3_code_bug :
    ((PersistenceEngine.save [⟨"a", "b", -1⟩]).take 16).length
        < (PersistenceEngine.save [⟨"a", "b", -1⟩]).length
    ∧ PersistenceEngine.load ((PersistenceEngine.save [⟨"a", "b", -1⟩]).take 16)
        = .ok [⟨"", "", 0⟩] := by
  refine ⟨by decide, by rfl⟩

/-- C8: a snapshot whose decoding raises a format error leaves the store
untouched: `KVStore::load` runs the whole decode before taking the
exclusive lock or mutating anything, so the decode error propagates with
the prior state intact (in the model, `load` returns the error without
producing any new state). The four format-error kinds all arise: bad
magic, bad version, negative record count, implausible string length. -/
theorem claim_C8 (st : KVStore) (data : List Nat) (now : Int) (e : String)
    (h : PersistenceEngine.load data = .error e) :
    st.load data now = .error e
    ∧ PersistenceEngine.load (List.replicate 16 0)
        = .error "Invalid snapshot file (bad magic)"
    ∧ PersistenceEngine.load (encode32 MAGIC ++ encode32 2 ++ encode64i 0)
        = .error "Unsupported snapshot version"
    ∧ PersistenceEngine.load (encode32 MAGIC ++ encode32 VERSION ++ encode64i (-1))
        = .error "Corrupt record count"
    ∧ PersistenceEngine.load
        (encode32 MAGIC ++ encode32 VERSION ++ encode64i 1 ++ encode32 2000000)
        = .error "Implausible string length in snapshot" := by
  refine ⟨?_, by rfl, by rfl, by rfl, by rfl⟩
  unfold KVStore.load
  rw [h]

/-- Witness for C8 at a concrete store and a concrete bad-magic file. -/
theorem claim_C8_witness :
    PersistenceEngine.load (List.replicate 16 0)
      = .error "Invalid snapshot file (bad magic)"
    ∧ (KVStore.init 2).load (List.replicate 16 0) 0
      = .error "Invalid snapshot file (bad magic)" := by
  have h := claim_C8 (KVStore.init 2) (List.replicate 16 0) 0
    "Invalid snapshot file (bad magic)" (by rfl)
  exact ⟨h.2.1, h.1⟩

/-! ## Codec round-trip lemmas -/

lemma decodeLE_encode32 (n : Nat) (h : n < 4294967296) :
    decodeLE (encode32 n) = n := by
  unfold decodeLE encode32
  simp only [List.foldr]
  omega

lemma decodeLE_encode64 (n : Nat) (h : n < 18446744073709551616) :
    decodeLE (encode64 n) = n := by
  unfold decodeLE encode64
  simp only [List.foldr]
  omega

lemma toInt64_decodeLE_encode64i (i : Int)
    (h1 : -9223372036854775808 ≤ i) (h2 : i < 9223372036854775808) :
    toInt64 (decodeLE (encode64i i)) = i := by
  have hm0 : 0 ≤ i.emod 18446744073709551616 := Int.emod_nonneg i (by norm_num)
  have hm1 : i.emod 18446744073709551616 < 18446744073709551616 :=
    Int.emod_lt_of_pos i (by norm_num)
  have heq : i.emod 18446744073709551616 = i
      ∨ i.emod 18446744073709551616 = i + 18446744073709551616 := by
    rcases Int.le_or_lt 0 i with hi | hi
    · left
      exact Int.emod_eq_of_lt hi (by omega)
    · right
      have h3 : (i + 18446744073709551616 * 1) % 18446744073709551616
          = i % 18446744073709551616 :=
        Int.add_mul_emod_self_left i 18446744073709551616 1
      rw [Int.mul_one] at h3
      have h4 : (i + 18446744073709551616) % 18446744073709551616
          = i + 18446744073709551616 :=
        Int.emod_eq_of_lt (by omega) (by omega)
      rw [h4] at h3
      exact h3.symm
  unfold encode64i
  rw [decodeLE_encode64 _ (by omega)]
  unfold toInt64
  split <;> omega

lemma encode32_length (n : Nat) : (encode32 n).length = 4 := rfl

lemma encode64i_length (i : Int) : (encode64i i).length = 8 := rfl

lemma IStream.readBytes_drop (buf : List Nat) (pos : Nat) (chunk rest : List Nat)
    (hbuf : buf.drop pos = chunk ++ rest) :
    IStream.readBytes ⟨buf, pos, false, false⟩ chunk.length
      = (chunk, ⟨buf, pos + chunk.length, false, false⟩) := by
  have hlen : chunk.length + rest.length = buf.length - pos := by
    have := congrArg List.length hbuf
    simpa using this.symm
  unfold IStream.readBytes
  dsimp only
  rw [if_neg (by simp)]
  rw [if_pos (by omega)]
  rw [hbuf, List.take_left]

lemma IStream.read32_drop (buf : List Nat) (pos : Nat) (n : Nat) (rest : List Nat)
    (h : n < 4294967296) (hbuf : buf.drop pos = encode32 n ++ rest) :
    IStream.read32 ⟨buf, pos, false, false⟩
      = (n, ⟨buf, pos + 4, false, false⟩) := by
  have h4 := IStream.readBytes_drop buf pos (encode32 n) rest hbuf
  rw [encode32_length] at h4
  unfold IStream.read32
  rw [h4]
  dsimp only
  rw [decodeLE_encode32 n h]

lemma IStream.read64_drop (buf : List Nat) (pos : Nat) (i : Int) (rest : List Nat)
    (h1 : -9223372036854775808 ≤ i) (h2 : i < 9223372036854775808)
    (hbuf : buf.drop pos = encode64i i ++ rest) :
    IStream.read64 ⟨buf, pos, false, false⟩
      = (i, ⟨buf, pos + 8, false, false⟩) := by
  have h8 := IStream.readBytes_drop buf pos (encode64i i) rest hbuf
  rw [encode64i_length] at h8
  unfold IStream.read64
  rw [h8]
  dsimp only
  rw [toInt64_decodeLE_encode64i i h1 h2]

lemma IStream.readString_drop (buf : List Nat) (pos : Nat) (s : String)
    (rest : List Nat) (hclean : ByteClean s) (hlen : s.length ≤ 1048576)
    (hbuf : buf.drop pos = encodeString s ++ rest) :
    IStream.readString ⟨buf, pos, false, false⟩
      = .ok (s, ⟨buf, pos + 4 + s.length, false, false⟩) := by
  have hbuf1 : buf.drop pos
      = encode32 s.length ++ ((s.toList.map Char.toNat) ++ rest) := by
    rw [hbuf]
    unfold encodeString
    rw [List.append_assoc]
  have hbuf2 : buf.drop (pos + 4) = (s.toList.map Char.toNat) ++ rest := by
    rw [← List.drop_drop, hbuf1]
    rw [show (4 : Nat) = (encode32 s.length).length from rfl, List.drop_left]
  have hmaplen : (s.toList.map Char.toNat).length = s.length := by
    rw [List.length_map]
    rfl
  have hb := IStream.readBytes_drop buf (pos + 4) (s.toList.map Char.toNat) rest hbuf2
  rw [hmaplen] at hb
  have hs : ((s.toList.map Char.toNat).map Char.ofNat) = s.toList := by
    rw [List.map_map]
    have hco : (Char.ofNat ∘ Char.toNat) = id := by
      funext c
      exact Char.ofNat_toNat c
    rw [hco, List.map_id]
  unfold IStream.readString
  rw [IStream.read32_drop buf pos s.length ((s.toList.map Char.toNat) ++ rest)
    (by omega) hbuf1]
  dsimp only
  rw [if_neg (by omega)]
  rw [hb]
  dsimp only
  rw [hs]
  rfl

lemma encodeString_length (s : String) : (encodeString s).length = 4 + s.length := by
  unfold encodeString
  rw [List.length_append, List.length_map]
  rfl

lemma drop_chunk (buf : List Nat) (pos : Nat) (chunk rest : List Nat)
    (h : buf.drop pos = chunk ++ rest) :
    buf.drop (pos + chunk.length) = rest := by
  rw [← List.drop_drop, h, List.drop_left]

lemma readRecords_drop (entries : List SnapshotEntry) (buf : List Nat) (pos : Nat)
    (rest : List Nat) (hok : ∀ e ∈ entries, EntryOK e)
    (hbuf : buf.drop pos = (entries.map encRecord).flatten ++ rest) :
    readRecords ⟨buf, pos, false, false⟩ entries.length
      = .ok (entries,
          ⟨buf, pos + ((entries.map encRecord).flatten).length, false, false⟩) := by
  induction entries generalizing pos with
  | nil =>
    simp only [List.length_nil, List.map_nil, List.flatten_nil]
    unfold readRecords
    simp
  | cons e es ih =>
    obtain ⟨hck, hcv, hlk, hlv, ht1, ht2⟩ := hok e (List.mem_cons_self e es)
    have hok' : ∀ x ∈ es, EntryOK x := fun x hx => hok x (List.mem_cons_of_mem e hx)
    have hb1 : buf.drop pos
        = encodeString e.key ++ (encodeString e.value
            ++ (encode64i e.ttl_ms ++ ((es.map encRecord).flatten ++ rest))) := by
      rw [hbuf, List.map_cons, List.flatten_cons]
      unfold encRecord
      simp only [List.append_assoc]
    have hd1 := drop_chunk buf pos _ _ hb1
    rw [encodeString_length] at hd1
    have e1 : pos + (4 + e.key.length) = pos + 4 + e.key.length := by omega
    rw [e1] at hd1
    have hd2 := drop_chunk buf (pos + 4 + e.key.length) _ _ hd1
    rw [encodeString_length] at hd2
    have e2 : pos + 4 + e.key.length + (4 + e.value.length)
        = pos + 4 + e.key.length + 4 + e.value.length := by omega
    rw [e2] at hd2
    have hd3 := drop_chunk buf (pos + 4 + e.key.length + 4 + e.value.length) _ _ hd2
    rw [encode64i_length] at hd3
    have hr1 := IStream.readString_drop buf pos e.key _ hck hlk hb1
    have hr2 := IStream.readString_drop buf (pos + 4 + e.key.length) e.value _
      hcv hlv hd1
    have hr3 := IStream.read64_drop buf (pos + 4 + e.key.length + 4 + e.value.length)
      e.ttl_ms _ ht1 ht2 hd2
    have hrec := ih (pos + 4 + e.key.length + 4 + e.value.length + 8) hok' hd3
    have efin : pos + 4 + e.key.length + 4 + e.value.length + 8
        + ((es.map encRecord).flatten).length
        = pos + (((e :: es).map encRecord).flatten).length := by
      rw [List.map_cons, List.flatten_cons, List.length_append]
      unfold encRecord
      rw [List.length_append, List.length_append, encodeString_length,
        encodeString_length, encode64i_length]
      omega
    rw [show (e :: es).length = es.length + 1 from rfl]
    unfold readRecords
    rw [hr1]
    dsimp only
    rw [hr2]
    dsimp only
    rw [hr3]
    dsimp only
    rw [hrec]
    dsimp only
    rw [efin]

/-- Decoding a file the codec wrote returns exactly the written records
(for representable records and a record count fitting in int64). -/
lemma PersistenceEngine.load_save (entries : List SnapshotEntry)
    (hok : ∀ e ∈ entries, EntryOK e)
    (hcount : entries.length < 9223372036854775808) :
    PersistenceEngine.load (PersistenceEngine.save entries) = .ok entries := by
  have hb0 : (PersistenceEngine.save entries).drop 0
      = encode32 MAGIC ++ (encode32 VERSION ++ (encode64i entries.length
          ++ ((entries.map encRecord).flatten ++ []))) := by
    rw [List.drop_zero]
    unfold PersistenceEngine.save
    simp [List.append_assoc]
  have hb1 := drop_chunk _ 0 _ _ hb0
  rw [encode32_length, Nat.zero_add] at hb1
  have hb2 := drop_chunk _ 4 _ _ hb1
  rw [encode32_length] at hb2
  have hb3 := drop_chunk _ 8 _ _ hb2
  rw [encode64i_length] at hb3
  have h1 := IStream.read32_drop (PersistenceEngine.save entries) 0 MAGIC _
    (by norm_num [MAGIC]) hb0
  have h2 := IStream.read32_drop (PersistenceEngine.save entries) 4 VERSION _
    (by norm_num [VERSION]) hb1
  have h3 := IStream.read64_drop (PersistenceEngine.save entries) 8
    (entries.length : Int) _ (by omega) (by exact_mod_cast hcount) hb2
  have h4 := readRecords_drop entries (PersistenceEngine.save entries) 16 [] hok
    (by rw [show (16 : Nat) = 8 + 8 from rfl, hb3, List.append_nil])
  simp only [show (4 + 4 : Nat) = 8 from rfl] at h2
  simp only [show (8 + 8 : Nat) = 16 from rfl] at h3
  unfold PersistenceEngine.load
  dsimp only
  rw [Nat.zero_add] at h1
  rw [h1]
  dsimp only
  rw [h2]
  dsimp only
  rw [if_neg (by simp)]
  rw [if_neg (by simp)]
  rw [h3]
  dsimp only
  rw [if_neg (by simp)]
  rw [Int.toNat_ofNat]
  rw [h4]
  dsimp only
  simp

lemma LRUCache.contains_false_iff (c : LRUCache) (k : String) :
    c.contains k = false ↔ k ∉ c.list.map Prod.fst := by
  rw [← Bool.not_eq_true, not_iff_not]
  exact c.contains_iff k

lemma LRUCache.set_insert_no_evict (c : LRUCache) (k v : String)
    (habs : c.contains k = false) (hlen : c.list.length + 1 ≤ c.capacity) :
    c.set k v = ("", { c with list := (k, v) :: c.list }) := by
  unfold LRUCache.set
  rw [find?_eq_none_of_not_contains c k habs]
  dsimp only
  rw [if_neg (by simp only [List.length_cons]; omega)]

lemma loadStep_eq (now : Int) (acc : KVStore) (e : SnapshotEntry)
    (ht : e.ttl_ms ≠ 0) (habs : acc.cache.contains e.key = false)
    (hlen : acc.cache.list.length + 1 ≤ acc.cache.capacity) :
    loadStep now acc e =
      { acc with
        cache := { acc.cache with list := (e.key, e.value) :: acc.cache.list },
        ttl_mgr := if 0 < e.ttl_ms then
            acc.ttl_mgr.setAbsolute e.key (now + e.ttl_ms)
          else acc.ttl_mgr } := by
  unfold loadStep
  rw [if_neg ht]
  rw [LRUCache.set_insert_no_evict _ _ _ habs hlen]
  dsimp only
  by_cases hpos : 0 < e.ttl_ms
  · rw [if_pos hpos, if_pos hpos]
  · rw [if_neg hpos, if_neg hpos]

lemma find?_filter_eq_none_of_not_mem_keys (es : List SnapshotEntry)
    (pred : SnapshotEntry → Bool) (k : String)
    (h : k ∉ es.map SnapshotEntry.key) :
    (es.filter pred).find? (fun e => e.key == k) = none := by
  rw [List.find?_eq_none]
  intro e he hek
  have hmem : e ∈ es := List.mem_of_mem_filter he
  exact h (List.mem_map.mpr ⟨e, hmem, by simpa using hek⟩)

/-- What the `KVStore::load` record loop does to an accumulator whose
cache has room for all records and contains none of their (distinct)
keys: the kept records (ttl ≠ 0) end up in the cache in reverse order in
front of the old entries, and the deadline map is the old map overridden
by now + ttl for the records with ttl > 0 — deadlines of keys not
re-registered are left as they were. -/
lemma applyLoad_fold (raw : List SnapshotEntry) (acc : KVStore) (now : Int)
    (hlen : acc.cache.list.length + raw.length ≤ acc.cache.capacity)
    (hdisj : ∀ e ∈ raw, e.ttl_ms ≠ 0 → acc.cache.contains e.key = false)
    (hnodup : (raw.map SnapshotEntry.key).Nodup) :
    (raw.foldl (loadStep now) acc).cache.capacity = acc.cache.capacity
    ∧ (raw.foldl (loadStep now) acc).cache.list
        = ((raw.filter (fun e => !(e.ttl_ms == 0))).map
            (fun e => (e.key, e.value))).reverse ++ acc.cache.list
    ∧ (∀ k, (raw.foldl (loadStep now) acc).ttl_mgr.lookup k
        = match (raw.filter (fun e => decide (0 < e.ttl_ms))).find?
              (fun e => e.key == k) with
          | some e => some (now + e.ttl_ms)
          | none => acc.ttl_mgr.lookup k) := by
  induction raw generalizing acc with
  | nil =>
    refine ⟨rfl, by simp, fun k => by simp⟩
  | cons e es ih =>
    simp only [List.map_cons, List.nodup_cons] at hnodup
    by_cases ht : e.ttl_ms = 0
    · have hstep : loadStep now acc e = acc := by
        unfold loadStep
        rw [if_pos ht]
      rw [List.foldl_cons, hstep]
      have hres := ih acc
        (by simp only [List.length_cons] at hlen; omega)
        (fun x hx => hdisj x (List.mem_cons_of_mem e hx))
        hnodup.2
      refine ⟨hres.1, ?_, ?_⟩
      · rw [hres.2.1]
        rw [List.filter_cons_of_neg (by simp [ht])]
      · intro k
        rw [hres.2.2 k]
        rw [List.filter_cons_of_neg (by simp [ht])]
    · have habs : acc.cache.contains e.key = false :=
        hdisj e (List.mem_cons_self e es) ht
      have hstep := loadStep_eq now acc e ht habs
        (by simp only [List.length_cons] at hlen; omega)
      rw [List.foldl_cons, hstep]
      have hres := ih
        { acc with
          cache := { acc.cache with list := (e.key, e.value) :: acc.cache.list },
          ttl_mgr := if 0 < e.ttl_ms then
              acc.ttl_mgr.setAbsolute e.key (now + e.ttl_ms)
            else acc.ttl_mgr }
        (by simp only [List.length_cons] at hlen ⊢; omega)
        (by
          intro x hx hxt
          rw [LRUCache.contains_false_iff]
          dsimp only
          rw [List.map_cons]
          intro hmem
          rcases List.mem_cons.mp hmem with h1 | h2
          · have h1' : x.key = e.key := h1
            exact hnodup.1 (h1' ▸ List.mem_map.mpr ⟨x, hx, rfl⟩)
          · exact absurd h2 ((acc.cache.contains_false_iff x.key).mp
              (hdisj x (List.mem_cons_of_mem e hx) hxt)))
        hnodup.2
      refine ⟨hres.1, ?_, ?_⟩
      · rw [hres.2.1]
        rw [List.filter_cons_of_pos (by simp [ht])]
        dsimp only
        rw [List.map_cons, List.reverse_cons, List.append_assoc]
        rfl
      · intro k
        rw [hres.2.2 k]
        by_cases hpos : 0 < e.ttl_ms
        · rw [List.filter_cons_of_pos (by simpa using hpos)]
          by_cases hk : e.key = k
          · subst hk
            rw [find?_filter_eq_none_of_not_mem_keys es _ e.key hnodup.1]
            rw [List.find?_cons_of_pos _ (by simp)]
            dsimp only
            rw [if_pos hpos]
            exact TTLManager.lookup_store_self acc.ttl_mgr e.key (now + e.ttl_ms)
          · rw [List.find?_cons_of_neg _ (by simpa using hk)]
            cases hfind : (es.filter (fun x => decide (0 < x.ttl_ms))).find?
                (fun x => x.key == k) with
            | none =>
              dsimp only
              rw [if_pos hpos]
              exact TTLManager.lookup_store_ne _ _ _ _ (fun h => hk h.symm)
            | some x => rfl
        · rw [List.filter_cons_of_neg (by simpa using hpos)]
          rw [if_neg hpos]

lemma TTLManager.ttl_ms_ge_neg_one (m : TTLManager) (k : String) (now : Int) :
    -1 ≤ m.ttl_ms k now := by
  unfold TTLManager.ttl_ms
  cases hl : m.lookup k with
  | none =>
    dsimp only
    omega
  | some d =>
    dsimp only
    split <;> omega

lemma filterMap_all_some {α β : Type} (l : List α) (f : α → Option β) (g : α → β)
    (h : ∀ a ∈ l, f a = some (g a)) : l.filterMap f = l.map g := by
  induction l with
  | nil => rfl
  | cons a l ih =>
    rw [List.filterMap_cons, h a (List.mem_cons_self a l), List.map_cons]
    rw [ih (fun x hx => h x (List.mem_cons_of_mem a hx))]

/-- With no resident key at remaining-ttl exactly 0, the save loop keeps
every resident entry, pairing it with its remaining milliseconds. -/
lemma saveEntries_eq (st : KVStore) (now : Int)
    (hzero : ∀ p ∈ st.cache.list, st.ttl_mgr.ttl_ms p.1 now ≠ 0) :
    st.saveEntries now
      = st.cache.list.map (fun p => ⟨p.1, p.2, st.ttl_mgr.ttl_ms p.1 now⟩) := by
  unfold KVStore.saveEntries
  apply filterMap_all_some
  intro p hp
  dsimp only
  rw [if_neg (hzero p hp)]

lemma find?_key_reverse {α : Type} (l : List (String × α)) (k : String)
    (h : (l.map Prod.fst).Nodup) :
    l.reverse.find? (fun p => p.1 == k) = l.find? (fun p => p.1 == k) := by
  induction l with
  | nil => rfl
  | cons x l ih =>
    simp only [List.map_cons, List.nodup_cons] at h
    rw [List.reverse_cons, List.find?_append, ih h.2]
    by_cases hx : x.1 = k
    · have hnone : l.find? (fun p => p.1 == k) = none := by
        apply find?_eq_none_of_not_mem_keys
        rw [← hx]
        exact h.1
      rw [hnone, Option.none_or]
      rw [List.find?_cons_of_pos _ (by simpa using hx),
        List.find?_cons_of_pos _ (by simpa using hx)]
    · rw [List.find?_cons_of_neg _ (by simpa using hx),
        List.find?_cons_of_neg _ (by simpa using hx), List.find?_nil, Option.or_none]

lemma find?_filter_key_some (es : List SnapshotEntry) (pred : SnapshotEntry → Bool)
    (e : SnapshotEntry) (he : e ∈ es) (hk : pred e = true)
    (hnodup : (es.map SnapshotEntry.key).Nodup) :
    (es.filter pred).find? (fun x => x.key == e.key) = some e := by
  induction es with
  | nil => cases he
  | cons a es ih =>
    simp only [List.map_cons, List.nodup_cons] at hnodup
    rcases List.mem_cons.mp he with rfl | hmem
    · rw [List.filter_cons_of_pos hk]
      rw [List.find?_cons_of_pos _ (by simp)]
    · have hne : a.key ≠ e.key := by
        intro hkey
        exact hnodup.1 (hkey ▸ List.mem_map.mpr ⟨e, hmem, rfl⟩)
      by_cases ha : pred a = true
      · rw [List.filter_cons_of_pos ha]
        rw [List.find?_cons_of_neg _ (by simpa using hne)]
        exact ih hmem hnodup.2
      · rw [List.filter_cons_of_neg (by simpa using ha)]
        exact ih hmem hnodup.2

lemma find?_filter_key_none (es : List SnapshotEntry) (pred : SnapshotEntry → Bool)
    (e : SnapshotEntry) (he : e ∈ es) (hk : pred e = false)
    (hnodup : (es.map SnapshotEntry.key).Nodup) :
    (es.filter pred).find? (fun x => x.key == e.key) = none := by
  induction es with
  | nil => cases he
  | cons a es ih =>
    simp only [List.map_cons, List.nodup_cons] at hnodup
    rcases List.mem_cons.mp he with rfl | hmem
    · rw [List.filter_cons_of_neg (by simpa using hk)]
      exact find?_filter_eq_none_of_not_mem_keys es pred e.key hnodup.1
    · have hne : a.key ≠ e.key := fun hkey =>
        hnodup.1 (hkey ▸ List.mem_map.mpr ⟨e, hmem, rfl⟩)
      by_cases ha : pred a = true
      · rw [List.filter_cons_of_pos ha]
        rw [List.find?_cons_of_neg _ (by simpa using hne)]
        exact ih hmem hnodup.2
      · rw [List.filter_cons_of_neg (by simpa using ha)]
        exact ih hmem hnodup.2

lemma KVStore.load_ok (st : KVStore) (data : List Nat) (now : Int)
    (raw : List SnapshotEntry) (h : PersistenceEngine.load data = .ok raw) :
    st.load data now = .ok (st.applyLoad raw now) := by
  unfold KVStore.load
  rw [h]

/-- Master round-trip fact: saving a well-formed store with no
expired-but-unswept resident key (remaining ttl ≠ 0 for all residents)
and loading the bytes into a fresh store of the same capacity succeeds
and produces: the same capacity, the recency list **reversed**, and a
deadline map holding now_l + remaining-ms for exactly the keys that had a
positive remaining ttl at save time. -/
lemma save_load_spec (st : KVStore) (now_s now_l : Int)
    (hWFc : st.cache.WF)
    (hsize : st.cache.size ≤ st.cache.capacity)
    (hcount : st.cache.list.length < 9223372036854775808)
    (hbytes : ∀ p ∈ st.cache.list, ByteClean p.1 ∧ ByteClean p.2
        ∧ p.1.length ≤ 1048576 ∧ p.2.length ≤ 1048576)
    (httl : ∀ p ∈ st.cache.list,
        st.ttl_mgr.ttl_ms p.1 now_s < 9223372036854775808)
    (hzero : ∀ p ∈ st.cache.list, st.ttl_mgr.ttl_ms p.1 now_s ≠ 0) :
    ∃ st', (KVStore.init st.cache.capacity).load (st.save now_s) now_l = .ok st'
      ∧ st'.cache.capacity = st.cache.capacity
      ∧ st'.cache.list = st.cache.list.reverse
      ∧ (∀ k, st'.ttl_mgr.lookup k =
          match st.cache.list.find? (fun p => p.1 == k) with
          | some p => if 0 < st.ttl_mgr.ttl_ms p.1 now_s
              then some (now_l + st.ttl_mgr.ttl_ms p.1 now_s) else none
          | none => none) := by
  have hent : st.saveEntries now_s = st.cache.list.map
      (fun p => ⟨p.1, p.2, st.ttl_mgr.ttl_ms p.1 now_s⟩) :=
    saveEntries_eq st now_s hzero
  have hkeys : (st.saveEntries now_s).map SnapshotEntry.key
      = st.cache.list.map Prod.fst := by
    rw [hent, List.map_map]
    rfl
  have hnodup : ((st.saveEntries now_s).map SnapshotEntry.key).Nodup := by
    rw [hkeys]
    exact hWFc
  have hlenent : (st.saveEntries now_s).length = st.cache.list.length := by
    rw [hent, List.length_map]
  have hok : ∀ e ∈ st.saveEntries now_s, EntryOK e := by
    intro e he
    rw [hent] at he
    obtain ⟨p, hp, rfl⟩ := List.mem_map.mp he
    obtain ⟨h1, h2, h3, h4⟩ := hbytes p hp
    refine ⟨h1, h2, h3, h4, ?_, httl p hp⟩
    have := st.ttl_mgr.ttl_ms_ge_neg_one p.1 now_s
    dsimp only
    omega
  have hdecode : PersistenceEngine.load (st.save now_s)
      = .ok (st.saveEntries now_s) := by
    unfold KVStore.save
    exact PersistenceEngine.load_save _ hok (by omega)
  have hload : (KVStore.init st.cache.capacity).load (st.save now_s) now_l
      = .ok ((KVStore.init st.cache.capacity).applyLoad (st.saveEntries now_s)
          now_l) :=
    KVStore.load_ok _ _ _ _ hdecode
  have hfold := applyLoad_fold (st.saveEntries now_s)
    { KVStore.init st.cache.capacity with
        cache := (KVStore.init st.cache.capacity).cache.clear } now_l
    (by
      unfold KVStore.init LRUCache.init LRUCache.clear
      dsimp only
      simp only [List.length_nil]
      unfold LRUCache.size at hsize
      omega)
    (fun e _ _ => rfl)
    hnodup
  have happly : (KVStore.init st.cache.capacity).applyLoad (st.saveEntries now_s)
      now_l = (st.saveEntries now_s).foldl (loadStep now_l)
        { KVStore.init st.cache.capacity with
            cache := (KVStore.init st.cache.capacity).cache.clear } := rfl
  have hfilter : (st.saveEntries now_s).filter (fun e => !(e.ttl_ms == 0))
      = st.saveEntries now_s := by
    apply List.filter_eq_self.mpr
    intro e he
    rw [hent] at he
    obtain ⟨p, hp, rfl⟩ := List.mem_map.mp he
    simpa using hzero p hp
  have hpair : (st.saveEntries now_s).map (fun e => (e.key, e.value))
      = st.cache.list := by
    rw [hent, List.map_map]
    have hcomp : ((fun e : SnapshotEntry => (e.key, e.value))
        ∘ (fun p : String × String =>
            (⟨p.1, p.2, st.ttl_mgr.ttl_ms p.1 now_s⟩ : SnapshotEntry))) = id := by
      funext p
      rfl
    rw [hcomp, List.map_id]
  refine ⟨_, hload, ?_, ?_, ?_⟩
  · rw [happly, hfold.1]
    rfl
  · rw [happly, hfold.2.1, hfilter, hpair]
    unfold KVStore.init LRUCache.init LRUCache.clear
    dsimp only
    rw [List.append_nil]
  · intro k
    rw [happly, hfold.2.2 k]
    cases hf : st.cache.list.find? (fun p => p.1 == k) with
    | none =>
      have hkmem : k ∉ (st.saveEntries now_s).map SnapshotEntry.key := by
        rw [hkeys]
        exact not_mem_keys_of_find?_none _ _ hf
      rw [find?_filter_eq_none_of_not_mem_keys _ _ _ hkmem]
      rfl
    | some p =>
      have hpmem : p ∈ st.cache.list := List.mem_of_find?_eq_some hf
      have hpk : p.1 = k := by simpa using List.find?_some hf
      have hemem : (⟨p.1, p.2, st.ttl_mgr.ttl_ms p.1 now_s⟩ : SnapshotEntry)
          ∈ st.saveEntries now_s := by
        rw [hent]
        exact List.mem_map.mpr ⟨p, hpmem, rfl⟩
      by_cases hr : 0 < st.ttl_mgr.ttl_ms p.1 now_s
      · have := find?_filter_key_some (st.saveEntries now_s)
          (fun e => decide (0 < e.ttl_ms)) _ hemem (by simpa using hr) hnodup
        dsimp only at this
        rw [hpk] at this
        rw [this]
        dsimp only
        rw [if_pos hr, hpk]
      · have := find?_filter_key_none (st.saveEntries now_s)
          (fun e => decide (0 < e.ttl_ms)) _ hemem (by simpa using hr) hnodup
        dsimp only at this
        rw [hpk] at this
        rw [this]
        dsimp only
        rw [if_neg hr]
        rfl

lemma bigString_length : bigString.length = 1048577 := by
  unfold bigString
  show (List.replicate 1048577 'a').length = 1048577
  exact List.length_replicate _ _

/-- A string over the 1 MiB ceiling makes `readString` raise the
implausible-length format error before reading the bytes. -/
lemma readString_big_error (buf : List Nat) (pos : Nat) (s : String)
    (rest : List Nat) (hlen : 1048576 < s.length) (hs32 : s.length < 4294967296)
    (hbuf : buf.drop pos = encodeString s ++ rest) :
    IStream.readString ⟨buf, pos, false, false⟩
      = .error "Implausible string length in snapshot" := by
  have hbuf1 : buf.drop pos
      = encode32 s.length ++ ((s.toList.map Char.toNat) ++ rest) := by
    rw [hbuf]
    unfold encodeString
    rw [List.append_assoc]
  unfold IStream.readString
  rw [IStream.read32_drop buf pos s.length ((s.toList.map Char.toNat) ++ rest)
    (by omega) hbuf1]
  dsimp only
  rw [if_pos hlen]

/-- Loading a file the codec wrote whose first record's value exceeds the
1 MiB ceiling raises the implausible-length error: the round trip
produces no record list at all. -/
lemma load_error_first_big (e : SnapshotEntry) (es : List SnapshotEntry)
    (hck : ByteClean e.key) (hkl : e.key.length ≤ 1048576)
    (hvl : 1048576 < e.value.length) (hv32 : e.value.length < 4294967296)
    (hcount : (es.length : Int) + 1 < 9223372036854775808) :
    PersistenceEngine.load (PersistenceEngine.save (e :: es))
      = .error "Implausible string length in snapshot" := by
  have hb0 : (PersistenceEngine.save (e :: es)).drop 0
      = encode32 MAGIC ++ (encode32 VERSION ++ (encode64i (e :: es).length
          ++ (encRecord e ++ ((es.map encRecord).flatten ++ [])))) := by
    rw [List.drop_zero]
    unfold PersistenceEngine.save
    rw [List.map_cons, List.flatten_cons]
    simp [List.append_assoc]
  have hb1 := drop_chunk _ 0 _ _ hb0
  rw [encode32_length, Nat.zero_add] at hb1
  have hb2 := drop_chunk _ 4 _ _ hb1
  rw [encode32_length] at hb2
  have hb3 := drop_chunk _ 8 _ _ hb2
  rw [encode64i_length] at hb3
  have hb3' : (PersistenceEngine.save (e :: es)).drop 16
      = encodeString e.key ++ (encodeString e.value
          ++ (encode64i e.ttl_ms ++ ((es.map encRecord).flatten ++ []))) := by
    rw [show (16 : Nat) = 8 + 8 from rfl, hb3]
    unfold encRecord
    simp [List.append_assoc]
  have hb4 := drop_chunk _ 16 _ _ hb3'
  rw [encodeString_length] at hb4
  have e1 : 16 + (4 + e.key.length) = 16 + 4 + e.key.length := by omega
  rw [e1] at hb4
  have h1 := IStream.read32_drop (PersistenceEngine.save (e :: es)) 0 MAGIC _
    (by norm_num [MAGIC]) hb0
  have h2 := IStream.read32_drop (PersistenceEngine.save (e :: es)) 4 VERSION _
    (by norm_num [VERSION]) hb1
  have h3 := IStream.read64_drop (PersistenceEngine.save (e :: es)) 8
    (((e :: es).length : Nat) : Int) _ (by omega)
    (by rw [List.length_cons]; push_cast; omega) hb2
  have hr1 := IStream.readString_drop (PersistenceEngine.save (e :: es)) 16
    e.key _ hck hkl hb3'
  have hr2 := readString_big_error (PersistenceEngine.save (e :: es))
    (16 + 4 + e.key.length) e.value _ hvl hv32 hb4
  simp only [show (4 + 4 : Nat) = 8 from rfl] at h2
  simp only [show (8 + 8 : Nat) = 16 from rfl] at h3
  unfold PersistenceEngine.load
  dsimp only
  rw [Nat.zero_add] at h1
  rw [h1]
  dsimp only
  rw [h2]
  dsimp only
  rw [if_neg (by simp), if_neg (by simp)]
  rw [h3]
  dsimp only
  rw [if_neg (by omega)]
  rw [Int.toNat_ofNat]
  rw [show (e :: es).length = es.length + 1 from rfl]
  unfold readRecords
  rw [hr1]
  dsimp only
  rw [hr2]

/-- A decode error propagates out of `KVStore::load` (the C++ exception
is thrown before the lock is taken or anything is mutated). -/
lemma KVStore.load_error (st : KVStore) (data : List Nat) (now : Int)
    (msg : String) (h : PersistenceEngine.load data = .error msg) :
    st.load data now = .error msg := by
  unfold KVStore.load
  rw [h]

/-- C2 counterexample, two independent failures of the claim as stated.
(i) A store holding a key whose deadline has passed but which the
background sweeper has not yet removed (remaining ttl 0 at save time):
the key is resident, but `save` drops it (the `ttl_ms == 0` filter), so
the loaded store's resident key set differs from the saved store's.
(ii) A store whose only resident value is one byte over the codec's
1 MiB sanity ceiling, with no deadline recorded at all (so (i)'s
exclusion does not apply): `save` writes the file, but `load` rejects it
with the implausible-length format error, so the round trip produces no
store whatsoever. -/
theorem claim_C2_counterexample :
    (((KVStore.init 2).set "a" "1" 1 0).2.cache.contains "a" = true)
    ∧ (∃ st', (KVStore.init 2).load
        ((((KVStore.init 2).set "a" "1" 1 0).2).save 2000) 3000 = .ok st'
        ∧ st'.cache.contains "a" = false)
    ∧ (((KVStore.init 2).set "big" bigString (-1) 0).2.cache.contains "big"
        = true)
    ∧ (((KVStore.init 2).set "big" bigString (-1) 0).2.ttl_mgr.expiry_map = [])
    ∧ ((KVStore.init 2).load
        ((((KVStore.init 2).set "big" bigString (-1) 0).2).save 0) 100
        = .error "Implausible string length in snapshot") := by
  refine ⟨rfl, ⟨_, rfl, rfl⟩, rfl, rfl, ?_⟩
  have hsave : (((KVStore.init 2).set "big" bigString (-1) 0).2).save 0
      = PersistenceEngine.save [⟨"big", bigString, -1⟩] := rfl
  rw [hsave]
  refine KVStore.load_error _ _ _ _ ?_
  refine load_error_first_big ⟨"big", bigString, -1⟩ [] (by decide) (by decide)
    ?_ ?_ (by simp)
  · show 1048576 < bigString.length
    rw [bigString_length]
    omega
  · show bigString.length < 4294967296
    rw [bigString_length]
    omega

/-- C2 amended: for every well-formed store state **in which no resident
key's remaining TTL is exactly 0 at save time** (no expired-but-unswept
resident) **and in which every resident key and value is at most the
codec's 1 MiB sanity ceiling** (a larger string is written by save but
rejected by load with "Implausible string length", so no store is
produced — see the counterexample), save then load into a fresh instance
of the same capacity succeeds and reproduces the same resident key set
and per-key values; the per-key remaining TTLs are no greater than at
save time (the code re-bases deadlines so they are in fact equal), and a
key with no TTL still has none. (The ByteClean and int64 hypotheses
restrict to states the C++ byte-string and integer types can
represent.) -/
theorem claim_C2_amended (st : KVStore) (now_s now_l : Int)
    (hWFc : st.cache.WF)
    (hsize : st.cache.size ≤ st.cache.capacity)
    (hcount : st.cache.list.length < 9223372036854775808)
    (hbytes : ∀ p ∈ st.cache.list, ByteClean p.1 ∧ ByteClean p.2
        ∧ p.1.length ≤ 1048576 ∧ p.2.length ≤ 1048576)
    (httl : ∀ p ∈ st.cache.list,
        st.ttl_mgr.ttl_ms p.1 now_s < 9223372036854775808)
    (hzero : ∀ p ∈ st.cache.list, st.ttl_mgr.ttl_ms p.1 now_s ≠ 0) :
    ∃ st', (KVStore.init st.cache.capacity).load (st.save now_s) now_l = .ok st'
      ∧ (∀ k, st'.cache.contains k = st.cache.contains k)
      ∧ (∀ k, st'.cache.lookup k = st.cache.lookup k)
      ∧ (∀ k, st.cache.contains k = true →
          st'.ttl_mgr.ttl_ms k now_l ≤ st.ttl_mgr.ttl_ms k now_s
          ∧ (st.ttl_mgr.ttl_ms k now_s = -1 →
              st'.ttl_mgr.ttl_ms k now_l = -1)) := by
  obtain ⟨st', h1, hcap, hlist, httlmap⟩ :=
    save_load_spec st now_s now_l hWFc hsize hcount hbytes httl hzero
  refine ⟨st', h1, ?_, ?_, ?_⟩
  · intro k
    unfold LRUCache.contains
    rw [hlist, List.any_reverse]
  · intro k
    unfold LRUCache.lookup
    rw [hlist, find?_key_reverse _ _ hWFc]
  · intro k hk
    have hkmem : k ∈ st.cache.list.map Prod.fst := (st.cache.contains_iff k).mp hk
    cases hf : st.cache.list.find? (fun p => p.1 == k) with
    | none => exact absurd hkmem (not_mem_keys_of_find?_none _ _ hf)
    | some q =>
      have hqk : q.1 = k := by simpa using List.find?_some hf
      have hqmem : q ∈ st.cache.list := List.mem_of_find?_eq_some hf
      have hl := httlmap k
      rw [hf] at hl
      dsimp only at hl
      rw [hqk] at hl
      have hge := st.ttl_mgr.ttl_ms_ge_neg_one k now_s
      by_cases hr : 0 < st.ttl_mgr.ttl_ms k now_s
      · rw [if_pos hr] at hl
        have : st'.ttl_mgr.ttl_ms k now_l = st.ttl_mgr.ttl_ms k now_s := by
          rw [TTLManager.ttl_ms_eq, hl]
          dsimp only
          rw [if_pos (by omega)]
          omega
        constructor
        · omega
        · intro h
          omega
      · rw [if_neg hr] at hl
        have : st'.ttl_mgr.ttl_ms k now_l = -1 := by
          rw [TTLManager.ttl_ms_eq, hl]
        constructor
        · omega
        · intro h
          exact this

/-- Witness for C2 amended: a store with one key with 4000 ms remaining
at save time, loaded 8000 ms later. -/
theorem claim_C2_witness :
    ∃ st', (KVStore.init 2).load
        ((((KVStore.init 2).set "a" "1" 5 0).2).save 1000) 9000 = .ok st'
      ∧ (∀ k, st'.cache.contains k
          = (((KVStore.init 2).set "a" "1" 5 0).2).cache.contains k)
      ∧ (∀ k, st'.cache.lookup k
          = (((KVStore.init 2).set "a" "1" 5 0).2).cache.lookup k)
      ∧ (∀ k, (((KVStore.init 2).set "a" "1" 5 0).2).cache.contains k = true →
          st'.ttl_mgr.ttl_ms k 9000
            ≤ (((KVStore.init 2).set "a" "1" 5 0).2).ttl_mgr.ttl_ms k 1000
          ∧ ((((KVStore.init 2).set "a" "1" 5 0).2).ttl_mgr.ttl_ms k 1000 = -1 →
              st'.ttl_mgr.ttl_ms k 9000 = -1)) :=
  claim_C2_amended (((KVStore.init 2).set "a" "1" 5 0).2) 1000 9000
    (by decide) (by decide) (by decide)
    (by decide) (by decide) (by decide)

/-- C10 counterexample, two independent failures of the claim as stated.
(i) With residents `b` (MRU, expired-but-unswept) and `a` (LRU, no ttl),
`keys()` is `[b, a]` before the round trip, but the loaded store's
`keys()` is `[a]`, not the claimed reversal `[a, b]` — the `ttl_ms == 0`
filter at save time drops `b`. (ii) With residents `b` (MRU, value one
byte over the 1 MiB ceiling) and `a`, and no deadlines at all, `load`
rejects the saved file with a format error, so there is no loaded
instance whose `keys()` could be the reversal. -/
theorem claim_C10_counterexample :
    ((((KVStore.init 2).set "a" "1" (-1) 0).2.set "b" "2" 1 0).2.keys = ["b", "a"])
    ∧ (∃ st', (KVStore.init 2).load
        (((((KVStore.init 2).set "a" "1" (-1) 0).2.set "b" "2" 1 0).2).save 2000)
        3000 = .ok st'
        ∧ st'.keys = ["a"]
        ∧ ¬ st'.keys = ["a", "b"])
    ∧ ((((KVStore.init 2).set "a" "1" (-1) 0).2.set "b" bigString (-1) 0).2.keys
        = ["b", "a"])
    ∧ ((((KVStore.init 2).set "a" "1" (-1) 0).2.set "b" bigString
        (-1) 0).2.ttl_mgr.expiry_map = [])
    ∧ ((KVStore.init 2).load
        (((((KVStore.init 2).set "a" "1" (-1) 0).2.set "b" bigString
            (-1) 0).2).save 0) 100
        = .error "Implausible string length in snapshot") := by
  refine ⟨rfl, ⟨_, rfl, rfl, by decide⟩, rfl, rfl, ?_⟩
  have hsave : ((((KVStore.init 2).set "a" "1" (-1) 0).2.set "b" bigString
      (-1) 0).2).save 0
      = PersistenceEngine.save [⟨"b", bigString, -1⟩, ⟨"a", "1", -1⟩] := rfl
  rw [hsave]
  refine KVStore.load_error _ _ _ _ ?_
  refine load_error_first_big ⟨"b", bigString, -1⟩ [⟨"a", "1", -1⟩] (by decide)
    (by decide) ?_ ?_ (by simp)
  · show 1048576 < bigString.length
    rw [bigString_length]
    omega
  · show bigString.length < 4294967296
    rw [bigString_length]
    omega

/-- C10 amended: for every well-formed store state in which no resident
key's remaining TTL is exactly 0 at save time and every resident key and
value is at most the codec's 1 MiB sanity ceiling (a larger value makes
load reject the file, so no loaded instance exists — see the
counterexample), the loaded fresh instance returns `keys()` in exactly
the reverse of the saved recency order: save writes records MRU-first and
load re-inserts them at the MRU position in file order. -/
theorem claim_C10_amended (st : KVStore) (now_s now_l : Int)
    (hWFc : st.cache.WF)
    (hsize : st.cache.size ≤ st.cache.capacity)
    (hcount : st.cache.list.length < 9223372036854775808)
    (hbytes : ∀ p ∈ st.cache.list, ByteClean p.1 ∧ ByteClean p.2
        ∧ p.1.length ≤ 1048576 ∧ p.2.length ≤ 1048576)
    (httl : ∀ p ∈ st.cache.list,
        st.ttl_mgr.ttl_ms p.1 now_s < 9223372036854775808)
    (hzero : ∀ p ∈ st.cache.list, st.ttl_mgr.ttl_ms p.1 now_s ≠ 0) :
    ∃ st', (KVStore.init st.cache.capacity).load (st.save now_s) now_l = .ok st'
      ∧ st'.keys = st.keys.reverse := by
  obtain ⟨st', h1, hcap, hlist, httlmap⟩ :=
    save_load_spec st now_s now_l hWFc hsize hcount hbytes httl hzero
  refine ⟨st', h1, ?_⟩
  unfold KVStore.keys LRUCache.entries
  rw [hlist, List.map_reverse]

/-- Witness for C10 amended: two residents set in order a then b (so
keys() = [b, a]) come back as [a, b]. -/
theorem claim_C10_witness :
    ∃ st', (KVStore.init
        ((((KVStore.init 2).set "a" "1" (-1) 0).2.set "b" "2" 9 0).2).cache.capacity).load
        (((((KVStore.init 2).set "a" "1" (-1) 0).2.set "b" "2" 9 0).2).save 1000)
        5000 = .ok st'
      ∧ st'.keys
          = ((((KVStore.init 2).set "a" "1" (-1) 0).2.set "b" "2" 9 0).2).keys.reverse :=
  claim_C10_amended ((((KVStore.init 2).set "a" "1" (-1) 0).2.set "b" "2" 9 0).2)
    1000 5000 (by decide) (by decide) (by decide) (by decide) (by decide)
    (by decide)

/-- C4 counterexample: a deadline recorded before `load` (key "k",
deadline 5000) survives a load of an empty snapshot even though no
snapshot record re-establishes it, and even though "k" is no longer
resident — `KVStore::load` clears only the cache, never the scheduler's
deadline map. -/
theorem claim_C4_counterexample :
    (((KVStore.init 2).set "k" "v" 5 0).2.ttl_mgr.lookup "k" = some 5000)
    ∧ ∃ st', ((KVStore.init 2).set "k" "v" 5 0).2.load
        (PersistenceEngine.save []) 9999 = .ok st'
        ∧ st'.cache.contains "k" = false
        ∧ st'.ttl_mgr.lookup "k" = some 5000 :=
  ⟨rfl, _, rfl, rfl, rfl⟩

/-- C4 amended: after a successful decode, `load` clears the cache
(only), then inserts each record with ttl ≠ 0 — the resulting residents
are exactly those records — and registers the absolute deadline
now + ttl for records with ttl > 0; records with ttl == 0 are dropped.
Deadlines recorded before the call that no record overwrites **persist**
in the scheduler's map (they are not cleared). -/
theorem claim_C4_amended (st : KVStore) (data : List Nat) (now : Int)
    (raw : List SnapshotEntry)
    (hdec : PersistenceEngine.load data = .ok raw)
    (hnodup : (raw.map SnapshotEntry.key).Nodup)
    (hcap : raw.length ≤ st.cache.capacity) :
    ∃ st', st.load data now = .ok st'
      ∧ st'.cache.list = ((raw.filter (fun e => !(e.ttl_ms == 0))).map
          (fun e => (e.key, e.value))).reverse
      ∧ (∀ k, st'.ttl_mgr.lookup k =
          match (raw.filter (fun e => decide (0 < e.ttl_ms))).find?
              (fun e => e.key == k) with
          | some e => some (now + e.ttl_ms)
          | none => st.ttl_mgr.lookup k) := by
  have hload := KVStore.load_ok st data now raw hdec
  have hfold := applyLoad_fold raw { st with cache := st.cache.clear } now
    (by
      unfold LRUCache.clear
      dsimp only
      simp only [List.length_nil]
      omega)
    (fun e _ _ => rfl)
    hnodup
  refine ⟨_, hload, ?_, ?_⟩
  · have : st.applyLoad raw now
        = raw.foldl (loadStep now) { st with cache := st.cache.clear } := rfl
    rw [this, hfold.2.1]
    unfold LRUCache.clear
    dsimp only
    rw [List.append_nil]
  · intro k
    have : st.applyLoad raw now
        = raw.foldl (loadStep now) { st with cache := st.cache.clear } := rfl
    rw [this, hfold.2.2 k]

/-- Witness for C4 amended: loading one record ("a", ttl 700 ms) into a
store that holds an unrelated deadline for "k". -/
theorem claim_C4_witness :
    ∃ st', ((KVStore.init 2).set "k" "v" 5 0).2.load
        (PersistenceEngine.save [⟨"a", "1", 700⟩]) 100 = .ok st'
      ∧ st'.cache.list = ((([⟨"a", "1", 700⟩] : List SnapshotEntry).filter
          (fun e => !(e.ttl_ms == 0))).map (fun e => (e.key, e.value))).reverse
      ∧ (∀ k, st'.ttl_mgr.lookup k =
          match (([⟨"a", "1", 700⟩] : List SnapshotEntry).filter
              (fun e => decide (0 < e.ttl_ms))).find? (fun e => e.key == k) with
          | some e => some (100 + e.ttl_ms)
          | none => ((KVStore.init 2).set "k" "v" 5 0).2.ttl_mgr.lookup k) :=
  claim_C4_amended (((KVStore.init 2).set "k" "v" 5 0).2)
    (PersistenceEngine.save [⟨"a", "1", 700⟩]) 100 [⟨"a", "1", 700⟩]
    (by rfl) (by decide) (by decide)

end ChronoStore
